import Mathlib

/-! # tungyao/uuid : a verification development of `uuid.go`

The Go file defines a Snowflake-style id generator (`IdWorker`, with
`InitIdWorker`, `NextId`, `tilNextMillis`) and a base-62 helper
(`decimalToAny`, `findKey`, `anyToDecimal`).

Modelling conventions.

* A Go `int64` is a Lean `Int` in `[-2^63, 2^63)`.  Every arithmetic or
  bitwise operation of the source is a named function (`add64`, `shl64`,
  `or64`, ...) that computes on the two's-complement bit pattern and wraps
  modulo `2^64`, as Go does.  Go `int` is taken to be 64 bits wide.
* A Go `uint` field that only ever holds a shift amount is a `Nat`.
* `time.Now().UnixNano()` is a read of an explicit clock: a stream
  `clock : Nat → Int` of successive readings together with a cursor `pos`
  that every read advances by one.
* A Go panic is an explicit outcome (`ret = none` for `NextId`).
* The mutex `idLock` only orders concurrent callers; the development is
  about one caller at a time and leaves it out.
-/

namespace Uuid

/-! ## 64-bit two's-complement arithmetic -/

/-- The bit pattern of an `int64`, as a natural number below `2^64`. -/
def toU64 (x : Int) : Nat := (x % 18446744073709551616).toNat

/-- The `int64` whose bit pattern is `n % 2^64`. -/
def ofU64 (n : Nat) : Int :=
  if n % 18446744073709551616 < 9223372036854775808 then
    ((n % 18446744073709551616 : Nat) : Int)
  else ((n % 18446744073709551616 : Nat) : Int) - 18446744073709551616

/-- Reduce a mathematical integer to the `int64` it is stored as. -/
def wrap64 (x : Int) : Int := ofU64 (toU64 x)

/-- The values an `int64` can hold. -/
def isInt64 (x : Int) : Prop := -9223372036854775808 ≤ x ∧ x ≤ 9223372036854775807

instance (x : Int) : Decidable (isInt64 x) := by unfold isInt64; infer_instance

/-- Go `a + b` on `int64`. -/
def add64 (a b : Int) : Int := wrap64 (a + b)

/-- Go `a - b` on `int64`. -/
def sub64 (a b : Int) : Int := wrap64 (a - b)

/-- Go `a * b` on `int64`. -/
def mul64 (a b : Int) : Int := wrap64 (a * b)

/-- Go unary `-a` on `int64` (the most negative value negates to itself). -/
def neg64 (a : Int) : Int := wrap64 (-a)

/-- Go `a << k` on `int64` with an unsigned shift count. -/
def shl64 (a : Int) (k : Nat) : Int := ofU64 (toU64 a <<< k)

/-- Go arithmetic `a >> k` on `int64` with an unsigned shift count. -/
def shr64 (a : Int) (k : Nat) : Int := a / (2 : Int) ^ k

/-- Go `a | b` on `int64`. -/
def or64 (a b : Int) : Int := ofU64 (toU64 a ||| toU64 b)

/-- Go `a & b` on `int64`. -/
def and64 (a b : Int) : Int := ofU64 (toU64 a &&& toU64 b)

/-- Go `a ^ b` (exclusive or) on `int64`. -/
def xor64 (a b : Int) : Int := ofU64 (toU64 a ^^^ toU64 b)

/-- Go unary `^a` (bitwise complement) on `int64`. -/
def not64 (a : Int) : Int := xor64 a (-1)

/-- Go `a / b` on `int64` for a non-zero divisor: truncated division. -/
def div64 (a b : Int) : Int := wrap64 (Int.tdiv a b)

/-- Go `a % b` on `int64` for a non-zero divisor: truncated remainder. -/
def rem64 (a b : Int) : Int := wrap64 (Int.tmod a b)

/-- The result of `strconv.Itoa` and of the `%v` and `%d` verbs on an integer. -/
def Itoa (x : Int) : String := toString x

/-! ## The generator -/

/-- The struct `IdWorker`, without the mutex. -/
structure IdWorker where
  startTime : Int
  workerIdBits : Nat
  datacenterIdBits : Nat
  maxWorkerId : Int
  maxDatacenterId : Int
  sequenceBits : Nat
  workerIdLeftShift : Nat
  datacenterIdLeftShift : Nat
  timestampLeftShift : Nat
  sequenceMask : Int
  workerId : Int
  datacenterId : Int
  sequence : Int
  lastTimestamp : Int
  signMask : Int
  deriving DecidableEq, Repr

/-- The zero value of `IdWorker`: what `IdWorker{}` or `new(IdWorker)` gives. -/
def zeroIdWorker : IdWorker :=
  { startTime := 0, workerIdBits := 0, datacenterIdBits := 0, maxWorkerId := 0,
    maxDatacenterId := 0, sequenceBits := 0, workerIdLeftShift := 0,
    datacenterIdLeftShift := 0, timestampLeftShift := 0, sequenceMask := 0,
    workerId := 0, datacenterId := 0, sequence := 0, lastTimestamp := 0, signMask := 0 }

/-- The assignments of `InitIdWorker` that precede its two range checks
(lines 33 to 46 of `uuid.go`); `workerId` and `datacenterId` are not touched. -/
def initConfig (w : IdWorker) : IdWorker :=
  let baseValue : Int := -1
  let w := { w with startTime := 1603702714272 }
  let w := { w with workerIdBits := 4 }
  let w := { w with datacenterIdBits := 4 }
  let w := { w with maxWorkerId := xor64 baseValue (shl64 baseValue w.workerIdBits) }
  let w := { w with maxDatacenterId := xor64 baseValue (shl64 baseValue w.datacenterIdBits) }
  let w := { w with sequenceBits := 16 }
  let w := { w with workerIdLeftShift := w.sequenceBits }
  let w := { w with datacenterIdLeftShift := w.workerIdBits + w.workerIdLeftShift }
  let w := { w with timestampLeftShift := w.datacenterIdBits + w.datacenterIdLeftShift }
  let w := { w with sequenceMask := xor64 baseValue (shl64 baseValue w.sequenceBits) }
  let w := { w with sequence := 0 }
  let w := { w with lastTimestamp := -1 }
  let w := { w with signMask := add64 (not64 baseValue) 1 }
  w

/-- The method `InitIdWorker`: the receiver after the call and the returned
error (`none` is Go `nil`).  The two checks read the receiver's fields
`w.workerId` and `w.datacenterId`, and both messages are formatted from the
two arguments, as in the source. -/
def InitIdWorker (w : IdWorker) (workerId datacenterId : Int) : IdWorker × Option String :=
  let w := initConfig w
  if w.workerId < 0 ∨ w.workerId > w.maxWorkerId then
    (w, some ("workerId[" ++ Itoa workerId ++ "] is less than 0 or greater than maxWorkerId["
      ++ Itoa datacenterId ++ "]."))
  else if w.datacenterId < 0 ∨ w.datacenterId > w.maxDatacenterId then
    (w, some ("datacenterId[" ++ Itoa workerId
      ++ "] is less than 0 or greater than maxDatacenterId[" ++ Itoa datacenterId ++ "]."))
  else
    ({ w with workerId := workerId, datacenterId := datacenterId }, none)

/-- The Go constant `int64(time.Millisecond)`: nanoseconds in a millisecond. -/
def millisecond : Int := 1000000

/-- The method `tilNextMillis`: one clock read, and when that reading is not
past `lastTimestamp` a second read divided by `time.Millisecond`.  Returns the
timestamp and the advanced clock cursor. -/
def tilNextMillis (clock : Nat → Int) (w : IdWorker) (pos : Nat) : Int × Nat :=
  let timestamp := clock pos
  if timestamp ≤ w.lastTimestamp then
    (div64 (clock (pos + 1)) millisecond, pos + 2)
  else
    (timestamp, pos + 1)

/-- The expression of lines 82 to 85 of `uuid.go`: the fields of the receiver
packed around the timestamp. -/
def packId (w : IdWorker) (timestamp : Int) : Int :=
  or64 (or64 (or64 (shl64 (sub64 timestamp w.startTime) w.timestampLeftShift)
    (shl64 w.datacenterId w.datacenterIdLeftShift))
    (shl64 w.workerId w.workerIdLeftShift)) w.sequence

/-- The bit pattern of the first three operands of `packId` or-ed together:
everything but the sequence. -/
def packHigh (w : IdWorker) (timestamp : Int) : Nat :=
  toU64 (shl64 (sub64 timestamp w.startTime) w.timestampLeftShift) |||
    toU64 (shl64 w.datacenterId w.datacenterIdLeftShift) |||
    toU64 (shl64 w.workerId w.workerIdLeftShift)

/-- The layout of an id in the words of the specification:
`(timestampOffset << 24) | (datacenterId << 20) | (workerId << 16) | sequence`,
with the documented shift amounts written out. -/
def specPack (timestampOffset datacenterId workerId sequence : Int) : Int :=
  or64 (or64 (or64 (shl64 timestampOffset 24) (shl64 datacenterId 20)) (shl64 workerId 16))
    sequence

/-- Lines 87 to 89 of `uuid.go`: `if id < 0 { id = -id }`. -/
def signFix (id : Int) : Int := if id < 0 then neg64 id else id

/-- What one call of `NextId` leaves behind: the receiver, the clock cursor and
the returned id (`none` when the call panicked). -/
structure Call where
  worker : IdWorker
  pos : Nat
  ret : Option Int
  deriving DecidableEq

/-- The method `NextId`, reading the clock from cursor `pos` on. -/
def NextId (clock : Nat → Int) (w : IdWorker) (pos : Nat) : Call :=
  let timestamp := clock pos
  let pos := pos + 1
  if timestamp < w.lastTimestamp then
    { worker := w, pos := pos, ret := none }
  else
    let step : IdWorker × Int × Nat :=
      if timestamp = w.lastTimestamp then
        let w := { w with sequence := and64 (add64 w.sequence 1) w.sequenceMask }
        if w.sequence = 0 then
          let r := tilNextMillis clock w pos
          ({ w with sequence := 0 }, r.1, r.2)
        else (w, timestamp, pos)
      else ({ w with sequence := 0 }, timestamp, pos)
    let w := { step.1 with lastTimestamp := step.2.1 }
    { worker := w, pos := step.2.2, ret := some (signFix (packId w step.2.1)) }

/-- The first `n` calls of `NextId` on one worker, one after the other: the ids
returned, the worker and the clock cursor at the end; `none` as soon as a call
panics. -/
def NextIds (clock : Nat → Int) : Nat → IdWorker → Nat → Option (List Int × IdWorker × Nat)
  | 0, w, pos => some ([], w, pos)
  | n + 1, w, pos =>
    match (NextId clock w pos).ret with
    | none => none
    | some id =>
      match NextIds clock n (NextId clock w pos).worker (NextId clock w pos).pos with
      | none => none
      | some (ids, w', pos') => some (id :: ids, w', pos')

/-- The configuration `InitIdWorker` writes: the fields `NextId` reads. -/
def Configured (w : IdWorker) : Prop :=
  w.startTime = 1603702714272 ∧ w.timestampLeftShift = 24 ∧ w.datacenterIdLeftShift = 20 ∧
    w.workerIdLeftShift = 16 ∧ w.sequenceMask = 65535

instance (w : IdWorker) : Decidable (Configured w) := by unfold Configured; infer_instance

/-- A configured worker whose two ids and sequence lie inside their fields. -/
def Ready (w : IdWorker) : Prop :=
  Configured w ∧ (0 ≤ w.datacenterId ∧ w.datacenterId ≤ 15) ∧
    (0 ≤ w.workerId ∧ w.workerId ≤ 15) ∧ (0 ≤ w.sequence ∧ w.sequence ≤ 65535)

/-- The four stored fields of a worker side by side, as a number; the timestamp
field is the offset from `startTime` less `B * 2^40`, the part of it that the
shift by 24 pushes out of the 64 bits. -/
def idKey (B : Nat) (w : IdWorker) : Int :=
  (w.lastTimestamp - 1603702714272 - (B : Int) * 1099511627776) * 16777216
    + w.datacenterId * 1048576 + w.workerId * 65536 + w.sequence

/-- What ties a worker to the clock between two calls: it is fresh and nothing
has been read, or `lastTimestamp` is the last reading consumed and `sequence`
counts readings equal to it that came just before. -/
def InStep (clock : Nat → Int) (w : IdWorker) (pos : Nat) : Prop :=
  Ready w ∧
    ((pos = 0 ∧ w.lastTimestamp = -1 ∧ w.sequence = 0) ∨
      (∃ q : Nat, pos = q + 1 ∧ w.lastTimestamp = clock q ∧ w.sequence.toNat ≤ q ∧
        clock (q - w.sequence.toNat) = clock q))

/-! ## The base-62 helper -/

/-- The entries of the map `tenToAny`, in the order of the source. -/
def tenToAnyEntries : List (Int × String) :=
  [
    (0, "0"), (1, "1"), (2, "2"), (3, "3"), (4, "4"), (5, "5"),
    (6, "6"), (7, "7"), (8, "8"), (9, "9"), (10, "a"), (11, "b"),
    (12, "c"), (13, "d"), (14, "e"), (15, "f"), (16, "g"), (17, "h"),
    (18, "i"), (19, "j"), (20, "k"), (21, "l"), (22, "m"), (23, "n"),
    (24, "o"), (25, "p"), (26, "q"), (27, "r"), (28, "s"), (29, "t"),
    (30, "u"), (31, "v"), (32, "w"), (33, "x"), (34, "y"), (35, "z"),
    (36, "A"), (37, "B"), (38, "C"), (39, "D"), (40, "E"), (41, "F"),
    (42, "G"), (43, "H"), (44, "I"), (45, "J"), (46, "K"), (47, "L"),
    (48, "M"), (49, "N"), (50, "O"), (51, "P"), (52, "Q"), (53, "R"),
    (54, "S"), (55, "T"), (56, "U"), (57, "V"), (58, "W"), (59, "X"),
    (60, "Y"), (61, "Z")]

/-- A read `tenToAny[k]` of the map: the empty string for a key it does not hold. -/
def tenToAny (k : Int) : String := (tenToAnyEntries.lookup k).getD ""

/-- Why a run of `decimalToAny` gives no string. -/
inductive Fault where
  | divideByZero
  | outOfFuel
  deriving DecidableEq, Repr

deriving instance DecidableEq for Except

/-- The loop of `decimalToAny`; `fuel` bounds the number of iterations.  Division
by a zero `n` is the Go run-time panic. -/
def decimalToAnyLoop (n : Int) : Nat → Int → String → Except Fault String
  | 0, num, newNumStr => if num ≠ 0 then .error .outOfFuel else .ok newNumStr
  | fuel + 1, num, newNumStr =>
    if num ≠ 0 then
      if n = 0 then .error .divideByZero
      else
        let remainder := rem64 num n
        let remainderString := tenToAny remainder
        decimalToAnyLoop n fuel (div64 num n) (remainderString ++ newNumStr)
    else .ok newNumStr

/-- The function `decimalToAny`.  Each iteration with `|n| ≥ 2` at least halves
`|num|`, so 64 iterations exhaust every `int64`; with `n = 1` or `n = -1` the Go
loop never ends on a non-zero `num`. -/
def decimalToAny (num n : Int) : Except Fault String := decimalToAnyLoop n 64 num ""

/-- The function `findKey`: the key whose value is `s`, or `-1`.  The values of
the map are pairwise distinct, so the order in which Go ranges over it is
immaterial. -/
def findKey (s : String) : Int :=
  tenToAnyEntries.foldl (fun result kv => if s = kv.2 then kv.1 else result) (-1)

/-- The call `strings.Split(num, "")` on a string of valid UTF-8: one string for
each character. -/
def splitChars (num : String) : List String := num.data.map (fun c => String.mk [c])

/-- The loop of `anyToDecimal` over the remaining pieces.  `pow n k` stands for
`int(math.Pow(float64(n), float64(k)))`, a float64 computation the development
takes as given. -/
def anyToDecimalLoop (pow : Int → Int → Int) (n : Int) : List String → Int → Int → Int
  | [], newNum, _ => newNum
  | value :: rest, newNum, nNum =>
    let tmp := findKey value
    if tmp ≠ -1 then
      anyToDecimalLoop pow n rest (add64 newNum (mul64 tmp (pow n nNum))) (sub64 nNum 1)
    else newNum

/-- The function `anyToDecimal`. -/
def anyToDecimal (pow : Int → Int → Int) (num : String) (n : Int) : String :=
  Itoa (anyToDecimalLoop pow n (splitChars num) 0 (sub64 (splitChars num).length 1))

/-- The method `NextStr`. -/
def NextStr (clock : Nat → Int) (w : IdWorker) (pos : Nat) : IdWorker × Nat × Option String :=
  let c := NextId clock w pos
  (c.worker, c.pos, c.ret.map Itoa)

/-- The method `NextShort`. -/
def NextShort (clock : Nat → Int) (w : IdWorker) (pos : Nat) :
    IdWorker × Nat × Option (Except Fault String) :=
  let c := NextId clock w pos
  (c.worker, c.pos, c.ret.map (fun id => decimalToAny id 62))

/-- The base-62 number written by a list of one-character pieces, most
significant first: the sum of `findKey piece * 62 ^ position`. -/
def posValue : List String → Int
  | [] => 0
  | p :: rest => findKey p * 62 ^ rest.length + posValue rest

/-- The decoding in the words of the specification: characters left to right,
at each step `acc = acc*62 + digitValue(char)`, started at `0`, with `findKey`
as `digitValue`. -/
def specDecode (s : String) : Int :=
  (splitChars s).foldl (fun acc p => acc * 62 + findKey p) 0

/-- The alphabet of the specification, in the order of the digit values. -/
def alphabet : String := "0123456789abcdefghijklmnopqrstuvwxyzABCDEFGHIJKLMNOPQRSTUVWXYZ"

/-! ## Two callers of `NextId` -/

/-- Lines 62 to 80 of `NextId`, from `Lock` to `Unlock`: what a caller does while
it holds the mutex.  The result is the receiver as the caller leaves it, the
caller's local variable `timestamp` and the clock cursor; `none` is the panic. -/
def nextIdLocked (clock : Nat → Int) (w : IdWorker) (pos : Nat) :
    Option (IdWorker × Int × Nat) :=
  let timestamp := clock pos
  let pos := pos + 1
  if timestamp < w.lastTimestamp then none
  else
    let step : IdWorker × Int × Nat :=
      if timestamp = w.lastTimestamp then
        let w := { w with sequence := and64 (add64 w.sequence 1) w.sequenceMask }
        if w.sequence = 0 then
          let r := tilNextMillis clock w pos
          ({ w with sequence := 0 }, r.1, r.2)
        else (w, timestamp, pos)
      else ({ w with sequence := 0 }, timestamp, pos)
    some ({ step.1 with lastTimestamp := step.2.1 }, step.2.1, step.2.2)

/-- Lines 82 to 90 of `NextId`, after `Unlock`: the caller packs its local
`timestamp` with the fields it reads from the shared receiver at that moment,
`w.sequence` among them, and fixes the sign. -/
def nextIdUnlocked (w : IdWorker) (timestamp : Int) : Int := signFix (packId w timestamp)

/-- Two callers of `NextId` on one shared worker, scheduled so that the first
and then the second run their locked part before either runs its unlocked part:
the ids the first and the second caller return. -/
def twoCallersInterleaved (clock : Nat → Int) (w : IdWorker) (pos : Nat) :
    Option (Int × Int) :=
  match nextIdLocked clock w pos with
  | none => none
  | some (w1, t1, p1) =>
    match nextIdLocked clock w1 p1 with
    | none => none
    | some (w2, t2, _) => some (nextIdUnlocked w2 t1, nextIdUnlocked w2 t2)

end Uuid

namespace Uuid

/-! ## Facts about the 64-bit layer -/

theorem toU64_lt (x : Int) : toU64 x < 18446744073709551616 := by
  unfold toU64; omega

theorem toU64_natCast {n : Nat} (h : n < 18446744073709551616) : toU64 (n : Int) = n := by
  unfold toU64; omega

theorem toU64_of_nonneg {x : Int} (h0 : 0 ≤ x) (h1 : x < 18446744073709551616) :
    toU64 x = x.toNat := by
  unfold toU64; omega

theorem ofU64_of_lt {n : Nat} (h : n < 9223372036854775808) : ofU64 n = (n : Int) := by
  unfold ofU64
  have h1 : n % 18446744073709551616 = n := Nat.mod_eq_of_lt (by omega)
  rw [h1, if_pos h]

theorem toU64_ofU64 (n : Nat) : toU64 (ofU64 n) = n % 18446744073709551616 := by
  unfold toU64 ofU64
  split <;> omega

theorem ofU64_isInt64 (n : Nat) : isInt64 (ofU64 n) := by
  unfold isInt64 ofU64
  split <;> omega

theorem wrap64_of_isInt64 {x : Int} (h : isInt64 x) : wrap64 x = x := by
  unfold isInt64 at h
  unfold wrap64 toU64 ofU64
  split <;> omega

theorem ofU64_nonneg_iff {n : Nat} (h : n < 18446744073709551616) :
    0 ≤ ofU64 n ↔ n < 9223372036854775808 := by
  unfold ofU64
  have h1 : n % 18446744073709551616 = n := Nat.mod_eq_of_lt h
  rw [h1]
  split <;> omega

theorem toU64_or64 (a b : Int) : toU64 (or64 a b) = toU64 a ||| toU64 b := by
  unfold or64
  rw [toU64_ofU64]
  apply Nat.mod_eq_of_lt
  exact Nat.or_lt_two_pow (n := 64) (toU64_lt a) (toU64_lt b)

theorem toU64_shl64 (a : Int) (k : Nat) :
    toU64 (shl64 a k) = (toU64 a * 2 ^ k) % 18446744073709551616 := by
  unfold shl64
  rw [toU64_ofU64, Nat.shiftLeft_eq]

theorem or_mod_two_pow (a b k : Nat) : (a ||| b) % 2 ^ k = a % 2 ^ k ||| b % 2 ^ k := by
  apply Nat.eq_of_testBit_eq
  intro i
  simp only [Nat.testBit_mod_two_pow, Nat.testBit_or, Bool.and_or_distrib_left]

theorem or_eq_add_of_low {a b : Nat} (k : Nat) (ha : a % 2 ^ k = 0) (hb : b < 2 ^ k) :
    a ||| b = a + b := by
  have h : a = 2 ^ k * (a / 2 ^ k) := by
    have := Nat.div_add_mod a (2 ^ k)
    omega
  rw [h]
  exact (Nat.mul_add_lt_is_or hb _).symm

theorem packId_eq (w : IdWorker) (ts : Int) :
    packId w ts = ofU64 (packHigh w ts ||| toU64 w.sequence) := by
  unfold packId packHigh
  rw [or64, toU64_or64, toU64_or64]

theorem packHigh_lt (w : IdWorker) (ts : Int) : packHigh w ts < 18446744073709551616 := by
  unfold packHigh
  exact Nat.or_lt_two_pow (n := 64)
    (Nat.or_lt_two_pow (n := 64) (toU64_lt _) (toU64_lt _)) (toU64_lt _)

theorem packHigh_low (w : IdWorker) (hc : Configured w) (ts : Int) :
    packHigh w ts % 2 ^ 16 = 0 := by
  obtain ⟨_, h24, h20, h16, _⟩ := hc
  unfold packHigh
  rw [or_mod_two_pow, or_mod_two_pow, toU64_shl64, toU64_shl64, toU64_shl64, h24, h20, h16]
  have e1 : ∀ x : Nat, x * 2 ^ 24 % 18446744073709551616 % 2 ^ 16 = 0 := by intro x; omega
  have e2 : ∀ x : Nat, x * 2 ^ 20 % 18446744073709551616 % 2 ^ 16 = 0 := by intro x; omega
  have e3 : ∀ x : Nat, x * 2 ^ 16 % 18446744073709551616 % 2 ^ 16 = 0 := by intro x; omega
  rw [e1, e2, e3]
  rfl

/-- With the configuration of `InitIdWorker` and a sequence inside its sixteen
bits, the packed bit pattern is the high part plus the sequence. -/
theorem packId_split (w : IdWorker) (hc : Configured w) (ts : Int)
    (hs : 0 ≤ w.sequence ∧ w.sequence ≤ 65535) :
    packId w ts = ofU64 (packHigh w ts + w.sequence.toNat) := by
  rw [packId_eq, toU64_of_nonneg hs.1 (by omega)]
  rw [or_eq_add_of_low 16 (packHigh_low w hc ts) (by omega)]

theorem signFix_of_nonneg {x : Int} (h : 0 ≤ x) : signFix x = x := by
  unfold signFix
  rw [if_neg (by omega)]

theorem toU64_wrap64 (x : Int) : toU64 (wrap64 x) = toU64 x := by
  unfold wrap64
  rw [toU64_ofU64]
  exact Nat.mod_eq_of_lt (toU64_lt x)

/-- The value of the high part when the two ids are inside their fields and the
offset of the timestamp is `B * 2^40` plus something below `2^39`: the shift by
24 drops `B * 2^40` and leaves the sign bit clear. -/
theorem packHigh_value (B : Nat) (w : IdWorker) (hc : Configured w) (ts : Int)
    (hts : 1603702714272 + (B : Int) * 1099511627776 ≤ ts ∧
      ts < 1603702714272 + (B : Int) * 1099511627776 + 549755813888)
    (hd : 0 ≤ w.datacenterId ∧ w.datacenterId ≤ 15)
    (hw : 0 ≤ w.workerId ∧ w.workerId ≤ 15) :
    (packHigh w ts : Int) =
      (ts - 1603702714272 - (B : Int) * 1099511627776) * 16777216
        + w.datacenterId * 1048576 + w.workerId * 65536 := by
  obtain ⟨hst, h24, h20, h16, _⟩ := hc
  unfold packHigh
  rw [toU64_shl64, toU64_shl64, toU64_shl64, h24, h20, h16, hst, sub64, toU64_wrap64,
    toU64_of_nonneg hd.1 (by omega), toU64_of_nonneg hw.1 (by omega)]
  unfold toU64
  generalize hu : ((ts - 1603702714272) % 18446744073709551616).toNat = u
  generalize hx : (ts - 1603702714272 - (B : Int) * 1099511627776).toNat = x
  generalize hy : w.datacenterId.toNat = y
  generalize hz : w.workerId.toNat = z
  have hx1 : x < 549755813888 := by omega
  have hy1 : y < 16 := by omega
  have hz1 : z < 16 := by omega
  have e1 : u * 2 ^ 24 % 18446744073709551616 = x * 2 ^ 24 := by omega
  have e2 : y * 2 ^ 20 % 18446744073709551616 = y * 2 ^ 20 := Nat.mod_eq_of_lt (by omega)
  have e3 : z * 2 ^ 16 % 18446744073709551616 = z * 2 ^ 16 := Nat.mod_eq_of_lt (by omega)
  have o1 : x * 2 ^ 24 ||| y * 2 ^ 20 = x * 2 ^ 24 + y * 2 ^ 20 :=
    or_eq_add_of_low 24 (by omega) (by omega)
  have o2 : (x * 2 ^ 24 + y * 2 ^ 20) ||| z * 2 ^ 16 = x * 2 ^ 24 + y * 2 ^ 20 + z * 2 ^ 16 :=
    or_eq_add_of_low 20 (by omega) (by omega)
  rw [e1, e2, e3, o1, o2]
  omega

/-- The packed id, as a number: the four fields side by side. -/
theorem packId_value (B : Nat) (w : IdWorker) (hc : Configured w) (ts : Int)
    (hts : 1603702714272 + (B : Int) * 1099511627776 ≤ ts ∧
      ts < 1603702714272 + (B : Int) * 1099511627776 + 549755813888)
    (hd : 0 ≤ w.datacenterId ∧ w.datacenterId ≤ 15)
    (hw : 0 ≤ w.workerId ∧ w.workerId ≤ 15)
    (hs : 0 ≤ w.sequence ∧ w.sequence ≤ 65535) :
    packId w ts =
      (ts - 1603702714272 - (B : Int) * 1099511627776) * 16777216
        + w.datacenterId * 1048576 + w.workerId * 65536 + w.sequence := by
  have hv := packHigh_value B w hc ts hts hd hw
  rw [packId_split w hc ts hs, ofU64_of_lt (by omega)]
  omega

/-! ## The three ways through `NextId` -/

theorem NextId_regress (clock : Nat → Int) (w : IdWorker) (pos : Nat)
    (h : clock pos < w.lastTimestamp) :
    NextId clock w pos = { worker := w, pos := pos + 1, ret := none } := by
  unfold NextId
  simp only [if_pos h]

theorem NextId_advance (clock : Nat → Int) (w : IdWorker) (pos : Nat)
    (h : w.lastTimestamp < clock pos) :
    NextId clock w pos =
      { worker := { w with sequence := 0, lastTimestamp := clock pos },
        pos := pos + 1,
        ret := some (signFix
          (packId { w with sequence := 0, lastTimestamp := clock pos } (clock pos))) } := by
  unfold NextId
  have h1 : ¬ clock pos < w.lastTimestamp := by omega
  have h2 : ¬ clock pos = w.lastTimestamp := by omega
  simp only [if_neg h1, if_neg h2]

theorem NextId_same (clock : Nat → Int) (w : IdWorker) (pos : Nat)
    (h : clock pos = w.lastTimestamp)
    (hn : and64 (add64 w.sequence 1) w.sequenceMask ≠ 0) :
    NextId clock w pos =
      { worker := { w with sequence := and64 (add64 w.sequence 1) w.sequenceMask,
                           lastTimestamp := clock pos },
        pos := pos + 1,
        ret := some (signFix
          (packId { w with sequence := and64 (add64 w.sequence 1) w.sequenceMask,
                           lastTimestamp := clock pos } (clock pos))) } := by
  unfold NextId
  have h1 : ¬ clock pos < w.lastTimestamp := by omega
  simp only [if_neg h1, if_pos h, if_neg hn]

theorem NextId_exhausted (clock : Nat → Int) (w : IdWorker) (pos : Nat)
    (h : clock pos = w.lastTimestamp)
    (hz : and64 (add64 w.sequence 1) w.sequenceMask = 0) :
    NextId clock w pos =
      { worker := { w with sequence := 0,
                           lastTimestamp := (tilNextMillis clock w (pos + 1)).1 },
        pos := (tilNextMillis clock w (pos + 1)).2,
        ret := some (signFix
          (packId { w with sequence := 0,
                           lastTimestamp := (tilNextMillis clock w (pos + 1)).1 }
            (tilNextMillis clock w (pos + 1)).1)) } := by
  unfold NextId
  have h1 : ¬ clock pos < w.lastTimestamp := by omega
  simp only [if_neg h1, if_pos h, if_pos hz]
  rfl

/-- A call of `NextId` writes only `sequence` and `lastTimestamp`. -/
theorem NextId_worker_static (clock : Nat → Int) (w : IdWorker) (pos : Nat) :
    (NextId clock w pos).worker =
      { w with sequence := (NextId clock w pos).worker.sequence,
               lastTimestamp := (NextId clock w pos).worker.lastTimestamp } := by
  rcases lt_trichotomy (clock pos) w.lastTimestamp with h | h | h
  · rw [NextId_regress _ _ _ h]
  · by_cases hz : and64 (add64 w.sequence 1) w.sequenceMask = 0
    · rw [NextId_exhausted _ _ _ h hz]
    · rw [NextId_same _ _ _ h hz]
  · rw [NextId_advance _ _ _ h]

/-- A call of `NextId` that returns gives back the sign-fixed packing of the
timestamp and sequence it has just stored. -/
theorem NextId_ret (clock : Nat → Int) (w : IdWorker) (pos : Nat) (id : Int)
    (h : (NextId clock w pos).ret = some id) :
    id = signFix (packId (NextId clock w pos).worker
      (NextId clock w pos).worker.lastTimestamp) := by
  rcases lt_trichotomy (clock pos) w.lastTimestamp with h1 | h1 | h1
  · rw [NextId_regress _ _ _ h1] at h
    exact absurd h (by simp)
  · by_cases hz : and64 (add64 w.sequence 1) w.sequenceMask = 0
    · rw [NextId_exhausted _ _ _ h1 hz] at h ⊢
      exact (Option.some.inj h).symm
    · rw [NextId_same _ _ _ h1 hz] at h ⊢
      exact (Option.some.inj h).symm
  · rw [NextId_advance _ _ _ h1] at h ⊢
    exact (Option.some.inj h).symm

theorem initConfig_sequenceMask (w : IdWorker) : (initConfig w).sequenceMask = 65535 := by
  have h : xor64 (-1) (shl64 (-1) 16) = 65535 := by decide
  simpa only [initConfig] using h

theorem initConfig_configured (w : IdWorker) : Configured (initConfig w) :=
  ⟨rfl, rfl, rfl, rfl, initConfig_sequenceMask w⟩

theorem InitIdWorker_configured (w : IdWorker) (a b : Int) :
    Configured (InitIdWorker w a b).1 := by
  have h := initConfig_configured w
  simp only [InitIdWorker]
  split_ifs <;> exact h

/-- A successful `InitIdWorker` stores its two arguments on top of `initConfig`. -/
theorem InitIdWorker_ok (w : IdWorker) (a b : Int) (h : (InitIdWorker w a b).2 = none) :
    (InitIdWorker w a b).1 = { initConfig w with workerId := a, datacenterId := b } := by
  simp only [InitIdWorker] at h ⊢
  split_ifs at h ⊢
  rfl

theorem InitIdWorker_zero (a b : Int) :
    InitIdWorker zeroIdWorker a b =
      ({ initConfig zeroIdWorker with workerId := a, datacenterId := b }, none) := by
  simp only [InitIdWorker]
  have h1 : ¬ ((initConfig zeroIdWorker).workerId < 0 ∨
      (initConfig zeroIdWorker).workerId > (initConfig zeroIdWorker).maxWorkerId) := by decide
  have h2 : ¬ ((initConfig zeroIdWorker).datacenterId < 0 ∨
      (initConfig zeroIdWorker).datacenterId > (initConfig zeroIdWorker).maxDatacenterId) := by
    decide
  simp only [if_neg h1, if_neg h2]

/-- On a worker left by a successful `InitIdWorker`, the packing of the source
is the layout of the specification at the stored fields. -/
theorem packId_after_init (w0 : IdWorker) (a b : Int) (clock : Nat → Int) (pos : Nat)
    (hinit : (InitIdWorker w0 a b).2 = none) :
    packId (NextId clock (InitIdWorker w0 a b).1 pos).worker
        (NextId clock (InitIdWorker w0 a b).1 pos).worker.lastTimestamp =
      specPack (sub64 (NextId clock (InitIdWorker w0 a b).1 pos).worker.lastTimestamp
        1603702714272) b a (NextId clock (InitIdWorker w0 a b).1 pos).worker.sequence := by
  have hs := NextId_worker_static clock (InitIdWorker w0 a b).1 pos
  rw [InitIdWorker_ok w0 a b hinit] at hs ⊢
  generalize NextId clock _ pos = c at hs ⊢
  rw [hs]
  rfl

/-! ## The sequence counter -/

theorem and64_mask (y : Int) : and64 y 65535 = ((toU64 y % 65536 : Nat) : Int) := by
  unfold and64
  have h : toU64 65535 = 2 ^ 16 - 1 := by decide
  have h2 : toU64 y % 2 ^ 16 < 9223372036854775808 := by omega
  rw [h, Nat.and_pow_two_sub_one_eq_mod, ofU64_of_lt h2]
  rfl

theorem and64_mask_range (y : Int) : 0 ≤ and64 y 65535 ∧ and64 y 65535 ≤ 65535 := by
  rw [and64_mask]
  omega

/-- The assignment `w.sequence = (w.sequence + 1) & w.sequenceMask` on a sequence
inside its sixteen bits: one more, or back to `0` from `65535`. -/
theorem next_sequence {s : Int} (h : 0 ≤ s ∧ s ≤ 65535) :
    and64 (add64 s 1) 65535 = if s = 65535 then 0 else s + 1 := by
  have h1 : add64 s 1 = s + 1 := wrap64_of_isInt64 (by unfold isInt64; omega)
  rw [and64_mask, h1, toU64_of_nonneg (by omega) (by omega)]
  split <;> omega

theorem NextId_configured (clock : Nat → Int) (w : IdWorker) (pos : Nat)
    (hc : Configured w) : Configured (NextId clock w pos).worker := by
  rw [NextId_worker_static]
  exact hc

/-- A call that returns without finding the sequence exhausted stores the value
it read, consumes one reading, and leaves a sequence of at most sixteen bits. -/
theorem NextId_plain (clock : Nat → Int) (w : IdWorker) (pos : Nat) (id : Int)
    (hc : Configured w)
    (hret : (NextId clock w pos).ret = some id)
    (hnw : ¬ (clock pos = w.lastTimestamp ∧ and64 (add64 w.sequence 1) w.sequenceMask = 0)) :
    ∃ s : Int, (0 ≤ s ∧ s ≤ 65535) ∧
      NextId clock w pos =
        { worker := { w with sequence := s, lastTimestamp := clock pos },
          pos := pos + 1,
          ret := some (signFix
            (packId { w with sequence := s, lastTimestamp := clock pos } (clock pos))) } := by
  rcases lt_trichotomy (clock pos) w.lastTimestamp with h | h | h
  · rw [NextId_regress _ _ _ h] at hret
    exact absurd hret (by simp)
  · by_cases hz : and64 (add64 w.sequence 1) w.sequenceMask = 0
    · exact absurd ⟨h, hz⟩ hnw
    · refine ⟨and64 (add64 w.sequence 1) w.sequenceMask, ?_, NextId_same _ _ _ h hz⟩
      rw [hc.2.2.2.2]
      exact and64_mask_range _
  · exact ⟨0, by omega, NextId_advance _ _ _ h⟩

/-! ## Runs of calls under a well-behaved clock -/

/-- With every field inside its width the id returned is the stored fields side
by side, and the worker stays ready. -/
theorem stored_id (B : Nat) (w : IdWorker) (hr : Ready w) (s t : Int)
    (hs : 0 ≤ s ∧ s ≤ 65535)
    (ht : 1603702714272 + (B : Int) * 1099511627776 ≤ t ∧
      t < 1603702714272 + (B : Int) * 1099511627776 + 549755813888) :
    signFix (packId { w with sequence := s, lastTimestamp := t } t)
        = idKey B { w with sequence := s, lastTimestamp := t } ∧
      Ready { w with sequence := s, lastTimestamp := t } := by
  obtain ⟨hc, hd, hw, _⟩ := hr
  have hr' : Ready { w with sequence := s, lastTimestamp := t } := ⟨hc, hd, hw, hs⟩
  refine ⟨?_, hr'⟩
  have hv := packId_value B { w with sequence := s, lastTimestamp := t } hc t ht hd hw hs
  rw [hv]
  simp only at hd hw ⊢
  rw [signFix_of_nonneg (by omega)]
  rfl

/-- One call under a clock that is non-decreasing, stays inside the timestamp
field and never shows one value 65538 times in a row: the call returns, the id
is the stored fields side by side, and it exceeds what was stored before. -/
theorem NextId_step (clock : Nat → Int) (N B : Nat) (w : IdWorker) (pos : Nat)
    (hmono : ∀ i, i + 1 < N → clock i ≤ clock (i + 1))
    (hrange : ∀ i, i < N →
      1603702714272 + (B : Int) * 1099511627776 ≤ clock i ∧
        clock i < 1603702714272 + (B : Int) * 1099511627776 + 549755813888)
    (hadv : ∀ i, i + 65537 < N → clock i < clock (i + 65537))
    (hinv : InStep clock w pos) (hN : pos + 2 ≤ N) :
    ∃ id, (NextId clock w pos).ret = some id ∧
      id = idKey B (NextId clock w pos).worker ∧ idKey B w < id ∧
      InStep clock (NextId clock w pos).worker (NextId clock w pos).pos ∧
      (NextId clock w pos).pos ≤ pos + 2 := by
  obtain ⟨hready, hst⟩ := hinv
  have hs := hready.2.2.2
  have hmask : w.sequenceMask = 65535 := hready.1.2.2.2.2
  have ht := hrange pos (by omega)
  have hle : w.lastTimestamp ≤ clock pos := by
    rcases hst with ⟨_, hl, _⟩ | ⟨q, hq, hl, _, _⟩
    · omega
    · rw [hl, hq]
      exact hmono q (by omega)
  rcases eq_or_lt_of_le hle with heq | hlt
  · rcases hst with ⟨_, hl, _⟩ | ⟨q, hq, hl, hsq, hrun⟩
    · omega
    · by_cases h65 : w.sequence = 65535
      · have hz : and64 (add64 w.sequence 1) w.sequenceMask = 0 := by
          rw [hmask, next_sequence hs, if_pos h65]
        have hnext : w.lastTimestamp < clock (pos + 1) := by
          have h1 := hadv (q - w.sequence.toNat) (by omega)
          have h2 : q - w.sequence.toNat + 65537 = pos + 1 := by omega
          rw [h2, hrun, ← hl] at h1
          exact h1
        have htil : tilNextMillis clock w (pos + 1) = (clock (pos + 1), pos + 2) := by
          unfold tilNextMillis
          simp only [if_neg (not_le.2 hnext)]
        have ht' := hrange (pos + 1) (by omega)
        obtain ⟨hid, hr'⟩ := stored_id B w hready 0 (clock (pos + 1)) (by omega) ht'
        rw [NextId_exhausted _ _ _ heq.symm hz, htil]
        refine ⟨_, rfl, hid, ?_, ⟨hr', Or.inr ⟨pos + 1, rfl, rfl, ?_, ?_⟩⟩, le_refl _⟩
        · rw [hid]
          unfold idKey
          simp only
          omega
        · show (0 : Int).toNat ≤ pos + 1
          simp
        · show clock (pos + 1 - (0 : Int).toNat) = clock (pos + 1)
          simp
      · have hseq : and64 (add64 w.sequence 1) w.sequenceMask = w.sequence + 1 := by
          rw [hmask, next_sequence hs, if_neg h65]
        have hn : and64 (add64 w.sequence 1) w.sequenceMask ≠ 0 := by
          rw [hseq]
          omega
        obtain ⟨hid, hr'⟩ := stored_id B w hready (w.sequence + 1) (clock pos) (by omega) ht
        rw [NextId_same _ _ _ heq.symm hn]
        simp only [hseq]
        refine ⟨_, rfl, hid, ?_, ⟨hr', Or.inr ⟨pos, rfl, rfl, ?_, ?_⟩⟩, by omega⟩
        · rw [hid]
          unfold idKey
          simp only
          omega
        · show (w.sequence + 1).toNat ≤ pos
          omega
        · show clock (pos - (w.sequence + 1).toNat) = clock pos
          have h2 : pos - (w.sequence + 1).toNat = q - w.sequence.toNat := by omega
          rw [h2, hrun, ← hl, heq]
  · obtain ⟨hid, hr'⟩ := stored_id B w hready 0 (clock pos) (by omega) ht
    rw [NextId_advance _ _ _ hlt]
    refine ⟨_, rfl, hid, ?_, ⟨hr', Or.inr ⟨pos, rfl, rfl, ?_, ?_⟩⟩, Nat.le_succ _⟩
    · rw [hid]
      unfold idKey
      simp only
      omega
    · show (0 : Int).toNat ≤ pos
      simp
    · show clock (pos - (0 : Int).toNat) = clock pos
      simp

/-- A run of calls under such a clock: every call returns, and the ids
increase strictly from one call to the next. -/
theorem NextIds_increasing (clock : Nat → Int) (N B : Nat)
    (hmono : ∀ i, i + 1 < N → clock i ≤ clock (i + 1))
    (hrange : ∀ i, i < N →
      1603702714272 + (B : Int) * 1099511627776 ≤ clock i ∧
        clock i < 1603702714272 + (B : Int) * 1099511627776 + 549755813888)
    (hadv : ∀ i, i + 65537 < N → clock i < clock (i + 65537)) :
    ∀ (n : Nat) (w : IdWorker) (pos : Nat), InStep clock w pos → pos + 2 * n ≤ N →
      ∃ ids w' pos', NextIds clock n w pos = some (ids, w', pos') ∧ ids.length = n ∧
        (∀ id ∈ ids, idKey B w < id) ∧ ids.Pairwise (fun a b => a < b) := by
  intro n
  induction n with
  | zero =>
    intro w pos _ _
    exact ⟨[], w, pos, rfl, rfl, by simp, List.Pairwise.nil⟩
  | succ n ih =>
    intro w pos hinv hN
    obtain ⟨id, hret, hid, hlt, hinv', hpos'⟩ :=
      NextId_step clock N B w pos hmono hrange hadv hinv (by omega)
    obtain ⟨ids, w', pos', hrun, hlen, hall, hpw⟩ :=
      ih (NextId clock w pos).worker (NextId clock w pos).pos hinv' (by omega)
    refine ⟨id :: ids, w', pos', ?_, by simp [hlen], ?_, ?_⟩
    · simp only [NextIds, hret, hrun]
    · intro x hx
      rcases List.mem_cons.1 hx with h | h
      · rw [h]
        exact hlt
      · have := hall x h
        omega
    · refine List.Pairwise.cons ?_ hpw
      intro x hx
      have := hall x hx
      omega

/-- A worker left by a successful `InitIdWorker` with both ids in `[0, 15]` is
ready, and no reading has been consumed. -/
theorem InStep_after_init (clock : Nat → Int) (w0 : IdWorker) (a b : Int)
    (hinit : (InitIdWorker w0 a b).2 = none)
    (ha : 0 ≤ a ∧ a ≤ 15) (hb : 0 ≤ b ∧ b ≤ 15) :
    InStep clock (InitIdWorker w0 a b).1 0 := by
  have hc := InitIdWorker_configured w0 a b
  rw [InitIdWorker_ok w0 a b hinit] at hc ⊢
  have hs : (0 : Int) ≤ 0 ∧ (0 : Int) ≤ 65535 := by decide
  exact ⟨⟨hc, hb, ha, hs⟩, Or.inl ⟨rfl, rfl, rfl⟩⟩

theorem NextIds_succ (clock : Nat → Int) (n : Nat) (w : IdWorker) (pos : Nat) (id : Int)
    (ids : List Int) (w' : IdWorker) (pos' : Nat)
    (hret : (NextId clock w pos).ret = some id)
    (hrun : NextIds clock n (NextId clock w pos).worker (NextId clock w pos).pos
      = some (ids, w', pos')) :
    NextIds clock (n + 1) w pos = some (id :: ids, w', pos') := by
  simp only [NextIds, hret, hrun]

/-- A run that completes returns one id for each call. -/
theorem NextIds_length (clock : Nat → Int) : ∀ (n : Nat) (w : IdWorker) (pos : Nat)
    (ids : List Int) (w' : IdWorker) (pos' : Nat),
    NextIds clock n w pos = some (ids, w', pos') → ids.length = n := by
  intro n
  induction n with
  | zero =>
    intro w pos ids w' pos' h
    simp only [NextIds, Option.some.injEq, Prod.mk.injEq] at h
    rw [← h.1]
    rfl
  | succ n ih =>
    intro w pos ids w' pos' h
    rw [NextIds] at h
    cases hret : (NextId clock w pos).ret with
    | none =>
      rw [hret] at h
      exact absurd h (by simp)
    | some id =>
      rw [hret] at h
      cases hrun : NextIds clock n (NextId clock w pos).worker (NextId clock w pos).pos with
      | none =>
        rw [hrun] at h
        exact absurd h (by simp)
      | some r =>
        obtain ⟨ids0, w0, p0⟩ := r
        rw [hrun] at h
        simp only [Option.some.injEq, Prod.mk.injEq] at h
        rw [← h.1, List.length_cons, ih _ _ _ _ _ hrun]

/-- One more call at the end of a run that has completed. -/
theorem NextIds_snoc (clock : Nat → Int) : ∀ (n : Nat) (w : IdWorker) (pos : Nat)
    (ids : List Int) (w' : IdWorker) (pos' : Nat) (id : Int),
    NextIds clock n w pos = some (ids, w', pos') →
    (NextId clock w' pos').ret = some id →
    NextIds clock (n + 1) w pos
      = some (ids ++ [id], (NextId clock w' pos').worker, (NextId clock w' pos').pos) := by
  intro n
  induction n with
  | zero =>
    intro w pos ids w' pos' id h hret
    simp only [NextIds, Option.some.injEq, Prod.mk.injEq] at h
    obtain ⟨h1, h2, h3⟩ := h
    subst h1 h2 h3
    simp only [NextIds, hret, List.nil_append]
  | succ n ih =>
    intro w pos ids w' pos' id h hret
    rw [NextIds] at h
    cases hr : (NextId clock w pos).ret with
    | none =>
      rw [hr] at h
      exact absurd h (by simp)
    | some id0 =>
      rw [hr] at h
      cases hrun : NextIds clock n (NextId clock w pos).worker (NextId clock w pos).pos with
      | none =>
        rw [hrun] at h
        exact absurd h (by simp)
      | some r =>
        obtain ⟨ids0, w0, p0⟩ := r
        rw [hrun] at h
        simp only [Option.some.injEq, Prod.mk.injEq] at h
        obtain ⟨h1, h2, h3⟩ := h
        subst h1 h2 h3
        have hnext := ih _ _ _ _ _ id hrun hret
        exact NextIds_succ clock (n + 1) w pos id0 (ids0 ++ [id]) _ _ hr hnext

/-- Calls that keep reading the value already stored only count the sequence up,
as long as it stays below `65535`. -/
theorem NextIds_repeat (clock : Nat → Int) (T : Int) (hclk : ∀ i, clock i = T) :
    ∀ (m : Nat) (w : IdWorker) (pos : Nat), Configured w → w.lastTimestamp = T →
      0 ≤ w.sequence → w.sequence + m ≤ 65535 →
      ∃ ids, NextIds clock m w pos
        = some (ids, { w with sequence := w.sequence + m }, pos + m) := by
  intro m
  induction m with
  | zero =>
    intro w pos _ _ _ _
    refine ⟨[], ?_⟩
    simp only [NextIds, Nat.cast_zero, add_zero]
  | succ m ih =>
    intro w pos hc hT h0 hm
    have hmask : w.sequenceMask = 65535 := hc.2.2.2.2
    have hm' : w.sequence + (m : Int) + 1 ≤ 65535 := by
      have : ((m + 1 : Nat) : Int) = (m : Int) + 1 := by push_cast; rfl
      omega
    have hseq : and64 (add64 w.sequence 1) w.sequenceMask = w.sequence + 1 := by
      rw [hmask, next_sequence ⟨h0, by omega⟩, if_neg (by omega)]
    have heq : clock pos = w.lastTimestamp := by rw [hclk, hT]
    have hstep := NextId_same clock w pos heq (by rw [hseq]; omega)
    rw [hseq, heq] at hstep
    obtain ⟨ids, hrun⟩ := ih { w with sequence := w.sequence + 1 } (pos + 1) hc hT
      (by show 0 ≤ w.sequence + 1; omega) (by show w.sequence + 1 + (m : Int) ≤ 65535; omega)
    refine ⟨signFix (packId { w with sequence := w.sequence + 1 } w.lastTimestamp) :: ids, ?_⟩
    have e : ({ w with sequence := w.sequence + ((m + 1 : Nat) : Int) } : IdWorker)
        = { w with sequence := w.sequence + 1 + (m : Int) } := by
      have : w.sequence + ((m + 1 : Nat) : Int) = w.sequence + 1 + (m : Int) := by
        push_cast
        ring
      rw [this]
    have e2 : pos + (m + 1) = pos + 1 + m := by omega
    rw [e, e2]
    apply NextIds_succ clock m w pos _ ids _ _ (by rw [hstep])
    rw [hstep]
    exact hrun

/-! ## Packing and sign of the returned id -/

/-- C1, as amended: on a worker left by a successful `InitIdWorker(workerId,
datacenterId)`, a call of `NextId` that returns gives the packed value
`((ts - startTime) << 24) | (datacenterId << 20) | (workerId << 16) | sequence`
of the timestamp and sequence it stores when that value is non-negative, and
its 64-bit negation when it is negative; on a fresh worker with `workerId = 2`,
`datacenterId = 1` and the reading `1603702714273` it returns `17956864`. -/
theorem C1_nextId_packed_sign_fixed (w0 : IdWorker) (workerId datacenterId : Int)
    (clock : Nat → Int) (pos : Nat) (id : Int)
    (hinit : (InitIdWorker w0 workerId datacenterId).2 = none)
    (hret : (NextId clock (InitIdWorker w0 workerId datacenterId).1 pos).ret = some id) :
    id = signFix (specPack
        (sub64 (NextId clock (InitIdWorker w0 workerId datacenterId).1 pos).worker.lastTimestamp
          1603702714272)
        datacenterId workerId
        (NextId clock (InitIdWorker w0 workerId datacenterId).1 pos).worker.sequence) ∧
    (NextId (fun _ => 1603702714273) (InitIdWorker zeroIdWorker 2 1).1 0).ret
      = some 17956864 ∧
    specPack 1 1 2 0 = 17956864 := by
  refine ⟨?_, by decide, by decide⟩
  rw [NextId_ret clock _ pos id hret, packId_after_init w0 workerId datacenterId clock pos hinit]

/-- The instance of C1 at a zero-valued worker initialised with `(2, 1)` and a
clock that reads `1603702714273`. -/
theorem C1_nextId_packed_sign_fixed_witness :
    (InitIdWorker zeroIdWorker 2 1).2 = none ∧
    (NextId (fun _ => 1603702714273) (InitIdWorker zeroIdWorker 2 1).1 0).ret
      = some 17956864 ∧
    (17956864 : Int) = signFix (specPack
        (sub64 (NextId (fun _ => 1603702714273)
          (InitIdWorker zeroIdWorker 2 1).1 0).worker.lastTimestamp 1603702714272)
        1 2
        (NextId (fun _ => 1603702714273) (InitIdWorker zeroIdWorker 2 1).1 0).worker.sequence) :=
  ⟨by decide, by decide,
    (C1_nextId_packed_sign_fixed zeroIdWorker 2 1 (fun _ => 1603702714273) 0 17956864
      (by decide) (by decide)).1⟩

/-- C1 as stated fails: on a fresh worker initialised with `(0, 0)` the reading
`1793792702012288929` packs to a negative value, and `NextId` returns its
negation, not the packed value. -/
theorem C1_counterexample :
    (InitIdWorker zeroIdWorker 0 0).2 = none ∧
    (NextId (fun _ => 1793792702012288929) (InitIdWorker zeroIdWorker 0 0).1 0).ret
      = some 9223372036837998592 ∧
    specPack (sub64 (NextId (fun _ => 1793792702012288929)
        (InitIdWorker zeroIdWorker 0 0).1 0).worker.lastTimestamp 1603702714272) 0 0
      (NextId (fun _ => 1793792702012288929) (InitIdWorker zeroIdWorker 0 0).1 0).worker.sequence
      = -9223372036837998592 := by
  decide

/-- C2, at the failing input: a fresh worker initialised with `(0, 0)` that reads
`1793792702012288928` packs the most negative `int64`, whose negation is itself,
so the id returned is negative. -/
theorem C2_nextId_returns_negative :
    (InitIdWorker zeroIdWorker 0 0).2 = none ∧
    (NextId (fun _ => 1793792702012288928) (InitIdWorker zeroIdWorker 0 0).1 0).ret
      = some (-9223372036854775808) := by
  decide

/-! ## Two calls on one clock value -/

/-- C5, as amended: for two consecutive `NextId` calls on a configured worker
that read the same clock value, neither of which finds the sequence exhausted,
and whose packed value is non-negative (so that no sign inversion takes place),
the second id is the first plus one, hence strictly greater, and the two ids
agree on every bit from position 16 upward. -/
theorem C5_same_reading_next_sequence (clock : Nat → Int) (w : IdWorker) (pos : Nat)
    (id1 id2 : Int)
    (hc : Configured w)
    (h1 : (NextId clock w pos).ret = some id1)
    (hnw1 : ¬ (clock pos = w.lastTimestamp ∧
      and64 (add64 w.sequence 1) w.sequenceMask = 0))
    (h2 : (NextId clock (NextId clock w pos).worker (NextId clock w pos).pos).ret = some id2)
    (hsame : clock (NextId clock w pos).pos = clock pos)
    (hnw2 : and64 (add64 (NextId clock w pos).worker.sequence 1)
      (NextId clock w pos).worker.sequenceMask ≠ 0)
    (hpos : 0 ≤ packId (NextId clock w pos).worker (NextId clock w pos).worker.lastTimestamp) :
    id1 < id2 ∧ id2 = id1 + 1 ∧ shr64 id1 16 = shr64 id2 16 := by
  obtain ⟨s, hs, hcall⟩ := NextId_plain clock w pos id1 hc h1 hnw1
  rw [hcall] at h1 h2 hsame hnw2 hpos
  simp only at h1 h2 hsame hnw2 hpos
  have hc1 : Configured { w with sequence := s, lastTimestamp := clock pos } := hc
  have hmask : w.sequenceMask = 65535 := hc.2.2.2.2
  rw [hmask, next_sequence hs] at hnw2
  have hs' : s ≠ 65535 := by
    intro h
    rw [if_pos h] at hnw2
    exact hnw2 rfl
  have hseq : and64 (add64 s 1) w.sequenceMask = s + 1 := by
    rw [hmask, next_sequence hs, if_neg hs']
  have hstep := NextId_same clock { w with sequence := s, lastTimestamp := clock pos }
    (pos + 1) hsame (by
      show and64 (add64 s 1) w.sequenceMask ≠ 0
      rw [hseq]
      omega)
  rw [hstep] at h2
  simp only [hseq] at h2
  have hH := packHigh_low _ hc1 (clock pos)
  have hlt := packHigh_lt { w with sequence := s, lastTimestamp := clock pos } (clock pos)
  have e1 := packId_split _ hc1 (clock pos) hs
  have hc2 : Configured { w with sequence := s + 1, lastTimestamp := clock (pos + 1) } := hc
  have e2 := packId_split { w with sequence := s + 1, lastTimestamp := clock (pos + 1) }
    hc2 (clock (pos + 1)) (by constructor <;> simp only <;> omega)
  have eH : packHigh { w with sequence := s + 1, lastTimestamp := clock (pos + 1) }
      (clock (pos + 1)) =
      packHigh { w with sequence := s, lastTimestamp := clock pos } (clock pos) := by
    rw [hsame]
    rfl
  rw [eH] at e2
  simp only at e1 e2
  generalize packHigh { w with sequence := s, lastTimestamp := clock pos } (clock pos) = H
    at hH hlt e1 e2
  rw [e1] at hpos h1
  rw [e2] at h2
  have hb : H + s.toNat < 9223372036854775808 :=
    (ofU64_nonneg_iff (by omega)).1 hpos
  have hb2 : H + (s + 1).toNat < 9223372036854775808 := by omega
  rw [ofU64_of_lt hb] at h1
  rw [ofU64_of_lt hb2] at h2
  rw [signFix_of_nonneg (by omega)] at h1 h2
  have i1 := Option.some.inj h1
  have i2 := Option.some.inj h2
  unfold shr64
  refine ⟨by omega, by omega, ?_⟩
  rw [← i1, ← i2]
  omega

/-- The instance of C5 at a fresh worker initialised with `(2, 1)` and a clock
that reads `1603702714273` twice: the ids are `17956864` and `17956865`. -/
theorem C5_same_reading_next_sequence_witness :
    Configured (InitIdWorker zeroIdWorker 2 1).1 ∧
    (NextId (fun _ => 1603702714273) (InitIdWorker zeroIdWorker 2 1).1 0).ret
      = some 17956864 ∧
    (NextId (fun _ => 1603702714273)
      (NextId (fun _ => 1603702714273) (InitIdWorker zeroIdWorker 2 1).1 0).worker
      (NextId (fun _ => 1603702714273) (InitIdWorker zeroIdWorker 2 1).1 0).pos).ret
      = some 17956865 ∧
    ((17956864 : Int) < 17956865 ∧ (17956865 : Int) = 17956864 + 1 ∧
      shr64 17956864 16 = shr64 17956865 16) :=
  ⟨by decide, by decide, by decide,
    C5_same_reading_next_sequence (fun _ => 1603702714273) (InitIdWorker zeroIdWorker 2 1).1 0
      17956864 17956865 (by decide) (by decide) (by decide) (by decide) (by decide)
      (by decide) (by decide)⟩

/-- C5 as stated fails: on a fresh worker initialised with `(0, 0)` two calls
that both read `1793792702012288929` store sequences `0` and `1` (no wrap), the
packed values are negative and are returned negated, so the second id is smaller
than the first and the ids differ above bit 16. -/
theorem C5_counterexample :
    (NextId (fun _ => 1793792702012288929) (InitIdWorker zeroIdWorker 0 0).1 0).ret
      = some 9223372036837998592 ∧
    (NextId (fun _ => 1793792702012288929)
      (NextId (fun _ => 1793792702012288929) (InitIdWorker zeroIdWorker 0 0).1 0).worker
      (NextId (fun _ => 1793792702012288929) (InitIdWorker zeroIdWorker 0 0).1 0).pos).ret
      = some 9223372036837998591 ∧
    (NextId (fun _ => 1793792702012288929)
      (NextId (fun _ => 1793792702012288929) (InitIdWorker zeroIdWorker 0 0).1 0).worker
      (NextId (fun _ => 1793792702012288929)
        (InitIdWorker zeroIdWorker 0 0).1 0).pos).worker.sequence = 1 ∧
    ¬ ((9223372036837998592 : Int) < 9223372036837998591) ∧
    shr64 9223372036837998592 16 ≠ shr64 9223372036837998591 16 := by
  decide

/-! ## Order and uniqueness of the ids of a run -/

/-- C3, as amended: on a worker initialised with both ids in `[0, 15]`, for `n`
calls of `NextId` whose clock readings are non-decreasing, have offsets
`t - startTime` in one window `[B * 2^40, B * 2^40 + 2^39)` (so that all ids keep
the same bits of the timestamp and none has its sign inverted; `B = 0` is the
case without overflow) and never show one value 65538 times in a row (so that a
call that finds the sequence exhausted re-reads an advanced clock), every call
returns and the ids are non-decreasing: `id[i] ≤ id[j]` whenever `i < j`, and in
particular `id[i] ≤ id[i+1]`. -/
theorem C3_ids_nondecreasing (w0 : IdWorker) (workerId datacenterId : Int)
    (clock : Nat → Int) (n B : Nat)
    (hinit : (InitIdWorker w0 workerId datacenterId).2 = none)
    (hw : 0 ≤ workerId ∧ workerId ≤ 15) (hd : 0 ≤ datacenterId ∧ datacenterId ≤ 15)
    (hmono : ∀ i, i + 1 < 2 * n → clock i ≤ clock (i + 1))
    (hrange : ∀ i, i < 2 * n →
      1603702714272 + (B : Int) * 1099511627776 ≤ clock i ∧
        clock i < 1603702714272 + (B : Int) * 1099511627776 + 549755813888)
    (hadv : ∀ i, i + 65537 < 2 * n → clock i < clock (i + 65537)) :
    ∃ ids w' pos',
      NextIds clock n (InitIdWorker w0 workerId datacenterId).1 0 = some (ids, w', pos') ∧
      ids.length = n ∧ ids.Pairwise (fun a b => a ≤ b) ∧
      ∀ i (h : i + 1 < ids.length), ids[i] ≤ ids[i + 1] := by
  obtain ⟨ids, w', pos', hrun, hlen, _, hpw⟩ :=
    NextIds_increasing clock (2 * n) B hmono hrange hadv n _ 0
      (InStep_after_init clock w0 workerId datacenterId hinit hw hd) (by omega)
  have hle : ids.Pairwise (fun a b => a ≤ b) := hpw.imp (fun h => le_of_lt h)
  refine ⟨ids, w', pos', hrun, hlen, hle, ?_⟩
  intro i h
  exact List.pairwise_iff_getElem.1 hle i (i + 1) (by omega) h (by omega)

/-- The instance of C3 at a fresh worker initialised with `(2, 1)`, three calls and
the clock that reads `1793792152256475040` twice, then
`1793792152256475041` twice, and so on (`B = 1631443`). -/
theorem C3_ids_nondecreasing_witness :
    ∃ ids w' pos',
      NextIds (fun i => 1793792152256475040 + ((i / 2 : Nat) : Int)) 3
        (InitIdWorker zeroIdWorker 2 1).1 0 = some (ids, w', pos') ∧
      ids.length = 3 ∧ ids.Pairwise (fun a b => a ≤ b) ∧
      ∀ i (h : i + 1 < ids.length), ids[i] ≤ ids[i + 1] :=
  C3_ids_nondecreasing zeroIdWorker 2 1 (fun i => 1793792152256475040 + ((i / 2 : Nat) : Int)) 3
    1631443
    (by decide) (by decide) (by decide)
    (by intro i _; simp only; omega)
    (by intro i _; simp only; omega)
    (by intro i _; simp only; omega)

/-- C3 as stated fails: on a fresh worker initialised with `(0, 0)` the
non-decreasing readings `1793792702012288929, 1793792702012288930` pack to
negative values that are returned negated, and the second id is smaller than
the first. -/
theorem C3_counterexample :
    (fun i => if i = 0 then (1793792702012288929 : Int) else 1793792702012288930) 0
      ≤ (fun i => if i = 0 then (1793792702012288929 : Int) else 1793792702012288930) 1 ∧
    (NextIds (fun i => if i = 0 then 1793792702012288929 else 1793792702012288930) 2
      (InitIdWorker zeroIdWorker 0 0).1 0).map (fun r => r.1)
      = some [9223372036837998592, 9223372036821221376] ∧
    ¬ ((9223372036837998592 : Int) ≤ 9223372036821221376) := by
  decide

/-- On a worker initialised with both ids in `[0, 15]`, for `n` calls of `NextId`
whose clock readings are non-decreasing, have offsets `t - startTime` in one
window `[B * 2^40, B * 2^40 + 2^39)` and never show one value 65538 times in a
row, every call returns and no two calls return the same id. -/
theorem ids_distinct_while_clock_advances (w0 : IdWorker) (workerId datacenterId : Int)
    (clock : Nat → Int) (n B : Nat)
    (hinit : (InitIdWorker w0 workerId datacenterId).2 = none)
    (hw : 0 ≤ workerId ∧ workerId ≤ 15) (hd : 0 ≤ datacenterId ∧ datacenterId ≤ 15)
    (hmono : ∀ i, i + 1 < 2 * n → clock i ≤ clock (i + 1))
    (hrange : ∀ i, i < 2 * n →
      1603702714272 + (B : Int) * 1099511627776 ≤ clock i ∧
        clock i < 1603702714272 + (B : Int) * 1099511627776 + 549755813888)
    (hadv : ∀ i, i + 65537 < 2 * n → clock i < clock (i + 65537)) :
    ∃ ids w' pos',
      NextIds clock n (InitIdWorker w0 workerId datacenterId).1 0 = some (ids, w', pos') ∧
      ids.length = n ∧ ids.Nodup ∧
      ∀ i j (hi : i < ids.length) (hj : j < ids.length), ids[i] = ids[j] → i = j := by
  obtain ⟨ids, w', pos', hrun, hlen, _, hpw⟩ :=
    NextIds_increasing clock (2 * n) B hmono hrange hadv n _ 0
      (InStep_after_init clock w0 workerId datacenterId hinit hw hd) (by omega)
  refine ⟨ids, w', pos', hrun, hlen, hpw.imp (fun h => ne_of_lt h), ?_⟩
  intro i j hi hj heq
  rcases lt_trichotomy i j with h | h | h
  · have := List.pairwise_iff_getElem.1 hpw i j hi hj h
    omega
  · exact h
  · have := List.pairwise_iff_getElem.1 hpw j i hj hi h
    omega

/-- C4, at the failing input: on a fresh worker initialised with `(2, 1)` and a
clock that keeps reading `1793792152256475041`, a value whose packing neither
overflows the sign bit nor is negated, 65538 calls of `NextId` all return.  The
first returns `17956864`; the 65537th finds the sequence exhausted, does not
wait for the clock to advance and returns `3189171560377352192` for the
timestamp `1793792152256` that `tilNextMillis` hands back; the 65538th reads
`1793792152256475041` again, now greater than `lastTimestamp`, and returns
`17956864` a second time. -/
theorem C4_exhausted_run_repeats_an_id :
    ∃ ids w pos,
      NextIds (fun _ => 1793792152256475041) 65538 (InitIdWorker zeroIdWorker 2 1).1 0
        = some (ids, w, pos) ∧
      ids.length = 65538 ∧
      ids[0]? = some 17956864 ∧
      ids[65536]? = some 3189171560377352192 ∧
      ids[65537]? = some 17956864 ∧
      ¬ ids.Nodup := by
  obtain ⟨mid, hmid⟩ := NextIds_repeat (fun _ => 1793792152256475041) 1793792152256475041
    (fun _ => rfl) 65535
    (NextId (fun _ => 1793792152256475041) (InitIdWorker zeroIdWorker 2 1).1 0).worker
    (NextId (fun _ => 1793792152256475041) (InitIdWorker zeroIdWorker 2 1).1 0).pos
    (by decide) (by decide) (by decide) (by decide)
  have hlen := NextIds_length _ _ _ _ _ _ _ hmid
  have hfirst : (NextId (fun _ => 1793792152256475041)
      (InitIdWorker zeroIdWorker 2 1).1 0).ret = some 17956864 := by decide
  have h1 := NextIds_succ _ 65535 _ 0 _ mid _ _ hfirst hmid
  have h2 := NextIds_snoc _ 65536 _ 0 _ _ _ 3189171560377352192 h1 (by decide)
  have h3 := NextIds_snoc _ 65537 _ 0 _ _ _ 17956864 h2 (by decide)
  have hl : ((17956864 :: mid) ++ [(3189171560377352192 : Int)]).length = 65537 := by
    simp [hlen]
  refine ⟨_, _, _, h3, by simp [hlen], ?_, ?_, ?_, ?_⟩
  · simp
  · rw [List.getElem?_append_left (by rw [hl]; omega)]
    have hl' : (17956864 :: mid).length = 65536 := by simp [hlen]
    rw [← hl']
    exact List.getElem?_concat_length _ _
  · rw [← hl]
    exact List.getElem?_concat_length _ _
  · intro hnd
    have hdis := (List.nodup_append.1 hnd).2.2
    exact hdis (List.mem_append_left _ (List.mem_cons_self _ _)) (List.mem_singleton_self _)

/-! ## The exhausted sequence -/

/-- C6, at the failing input: on a fresh worker initialised with `(0, 0)` and a
clock that keeps reading `1793792702012288929`, the first 65536 calls leave
`lastTimestamp = 1793792702012288929` and `sequence = 65535`.  The next call
reads the same value, wraps the sequence to `0` and takes from `tilNextMillis`
the timestamp `1793792702012`, which is smaller than the previous
`lastTimestamp`, stores it and packs it into the id. -/
theorem C6_exhausted_timestamp_goes_back :
    ∃ ids w pos,
      NextIds (fun _ => 1793792702012288929) 65536 (InitIdWorker zeroIdWorker 0 0).1 0
        = some (ids, w, pos) ∧
      w.lastTimestamp = 1793792702012288929 ∧ w.sequence = 65535 ∧
      (fun _ => (1793792702012288929 : Int)) pos = w.lastTimestamp ∧
      and64 (add64 w.sequence 1) w.sequenceMask = 0 ∧
      (NextId (fun _ => 1793792702012288929) w pos).worker.lastTimestamp = 1793792702012 ∧
      (NextId (fun _ => 1793792702012288929) w pos).worker.sequence = 0 ∧
      (NextId (fun _ => 1793792702012288929) w pos).ret = some 3189180783751331840 ∧
      ¬ (w.lastTimestamp < (NextId (fun _ => 1793792702012288929) w pos).worker.lastTimestamp) := by
  obtain ⟨ids, hrun⟩ := NextIds_repeat (fun _ => 1793792702012288929) 1793792702012288929
    (fun _ => rfl) 65535
    (NextId (fun _ => 1793792702012288929) (InitIdWorker zeroIdWorker 0 0).1 0).worker
    (NextId (fun _ => 1793792702012288929) (InitIdWorker zeroIdWorker 0 0).1 0).pos
    (by decide) (by decide) (by decide) (by decide)
  have hfirst : (NextId (fun _ => 1793792702012288929)
      (InitIdWorker zeroIdWorker 0 0).1 0).ret = some 9223372036837998592 := by decide
  refine ⟨_, _, _, NextIds_succ _ 65535 _ 0 _ ids _ _ hfirst hrun, ?_, ?_, ?_, ?_, ?_, ?_, ?_, ?_⟩
    <;> decide

/-! ## The fault path and initialisation -/

/-- C7: `NextId` panics exactly when the clock value it reads is strictly less
than `lastTimestamp`; the call then returns no id and leaves the worker, and so
its `lastTimestamp` and `sequence`, as they were. -/
theorem C7_nextId_panics_iff_clock_regressed (clock : Nat → Int) (w : IdWorker) (pos : Nat) :
    ((NextId clock w pos).ret = none ↔ clock pos < w.lastTimestamp) ∧
    (clock pos < w.lastTimestamp →
      (NextId clock w pos).ret = none ∧
      (NextId clock w pos).worker = w ∧
      (NextId clock w pos).worker.lastTimestamp = w.lastTimestamp ∧
      (NextId clock w pos).worker.sequence = w.sequence) := by
  constructor
  · rcases lt_trichotomy (clock pos) w.lastTimestamp with h | h | h
    · rw [NextId_regress _ _ _ h]
      exact ⟨fun _ => h, fun _ => rfl⟩
    · by_cases hz : and64 (add64 w.sequence 1) w.sequenceMask = 0
      · rw [NextId_exhausted _ _ _ h hz]
        exact ⟨fun h' => absurd h' (by simp), fun h' => absurd h' (by omega)⟩
      · rw [NextId_same _ _ _ h hz]
        exact ⟨fun h' => absurd h' (by simp), fun h' => absurd h' (by omega)⟩
    · rw [NextId_advance _ _ _ h]
      exact ⟨fun h' => absurd h' (by simp), fun h' => absurd h' (by omega)⟩
  · intro h
    rw [NextId_regress _ _ _ h]
    exact ⟨rfl, rfl, rfl, rfl⟩

/-- The instance of C7 at a worker whose `lastTimestamp` is `5` and a clock that
reads `1`. -/
theorem C7_nextId_panics_iff_clock_regressed_witness :
    (1 : Int) < ({ zeroIdWorker with lastTimestamp := 5 } : IdWorker).lastTimestamp ∧
    (NextId (fun _ => 1) { zeroIdWorker with lastTimestamp := 5 } 0).ret = none ∧
    (NextId (fun _ => 1) { zeroIdWorker with lastTimestamp := 5 } 0).worker
      = { zeroIdWorker with lastTimestamp := 5 } :=
  ⟨by decide,
    ((C7_nextId_panics_iff_clock_regressed (fun _ => 1)
      { zeroIdWorker with lastTimestamp := 5 } 0).2 (by decide)).1,
    ((C7_nextId_panics_iff_clock_regressed (fun _ => 1)
      { zeroIdWorker with lastTimestamp := 5 } 0).2 (by decide)).2.1⟩

/-- C8, at the failing inputs: on a zero-valued worker `InitIdWorker(16, 0)`,
`InitIdWorker(-1, 0)` and `InitIdWorker(0, 16)` all return `nil`, and the
out-of-range id is stored. -/
theorem C8_init_accepts_out_of_range :
    (InitIdWorker zeroIdWorker 16 0).2 = none ∧
    (InitIdWorker zeroIdWorker (-1) 0).2 = none ∧
    (InitIdWorker zeroIdWorker 0 16).2 = none ∧
    (InitIdWorker zeroIdWorker 16 0).1.workerId = 16 ∧
    (InitIdWorker zeroIdWorker (-1) 0).1.workerId = -1 ∧
    (InitIdWorker zeroIdWorker 0 16).1.datacenterId = 16 := by
  decide

/-- C9: for `workerId` and `datacenterId` in `[0, 15]`, `InitIdWorker` on a
zero-valued worker returns `nil` and leaves a ready generator: the two ids are
the arguments, `sequence = 0`, `lastTimestamp = -1`, and the configuration is
the one `NextId` relies on. -/
theorem C9_init_in_range_succeeds (workerId datacenterId : Int)
    (_hw : 0 ≤ workerId ∧ workerId ≤ 15) (_hd : 0 ≤ datacenterId ∧ datacenterId ≤ 15) :
    (InitIdWorker zeroIdWorker workerId datacenterId).2 = none ∧
    (InitIdWorker zeroIdWorker workerId datacenterId).1.workerId = workerId ∧
    (InitIdWorker zeroIdWorker workerId datacenterId).1.datacenterId = datacenterId ∧
    (InitIdWorker zeroIdWorker workerId datacenterId).1.sequence = 0 ∧
    (InitIdWorker zeroIdWorker workerId datacenterId).1.lastTimestamp = -1 ∧
    Configured (InitIdWorker zeroIdWorker workerId datacenterId).1 := by
  refine ⟨?_, ?_, ?_, ?_, ?_, InitIdWorker_configured _ _ _⟩ <;>
    rw [InitIdWorker_zero] <;> rfl

/-- The instance of C9 at `workerId = 2`, `datacenterId = 1`. -/
theorem C9_init_in_range_succeeds_witness :
    ((0 : Int) ≤ 2 ∧ (2 : Int) ≤ 15) ∧ ((0 : Int) ≤ 1 ∧ (1 : Int) ≤ 15) ∧
    (InitIdWorker zeroIdWorker 2 1).2 = none ∧
    (InitIdWorker zeroIdWorker 2 1).1.workerId = 2 ∧
    (InitIdWorker zeroIdWorker 2 1).1.datacenterId = 1 ∧
    (InitIdWorker zeroIdWorker 2 1).1.sequence = 0 ∧
    (InitIdWorker zeroIdWorker 2 1).1.lastTimestamp = -1 ∧
    Configured (InitIdWorker zeroIdWorker 2 1).1 :=
  ⟨by decide, by decide, C9_init_in_range_succeeds 2 1 (by decide) (by decide)⟩

/-! ## Base 62 -/

theorem digit_facts : ∀ k : Nat, k < 62 →
    findKey (tenToAny (k : Int)) = (k : Int) ∧
      splitChars (tenToAny (k : Int)) = [tenToAny (k : Int)] := by
  decide

theorem splitChars_append (a b : String) :
    splitChars (a ++ b) = splitChars a ++ splitChars b := by
  unfold splitChars
  rw [String.data_append, List.map_append]

theorem posValue_snoc (l : List String) (d : String) :
    posValue (l ++ [d]) = 62 * posValue l + findKey d := by
  induction l with
  | nil => simp [posValue]
  | cons p rest ih =>
    have hlen : (rest ++ [d]).length = rest.length + 1 := by simp
    show findKey p * 62 ^ (rest ++ [d]).length + posValue (rest ++ [d])
      = 62 * (findKey p * 62 ^ rest.length + posValue rest) + findKey d
    rw [hlen, ih, pow_succ]
    ring

theorem posValue_nonneg (l : List String)
    (hl : ∀ p ∈ l, 0 ≤ findKey p ∧ findKey p < 62) : 0 ≤ posValue l := by
  induction l with
  | nil => simp [posValue]
  | cons p rest ih =>
    have h1 := (hl p (List.mem_cons_self _ _)).1
    have h2 := ih (fun q hq => hl q (List.mem_cons_of_mem _ hq))
    have h3 : (0 : Int) ≤ 62 ^ rest.length := by positivity
    simp only [posValue]
    have := mul_nonneg h1 h3
    omega

/-- The loop of `decimalToAny` with base 62 on a non-negative `int64` below
`62 ^ k`: with at least `k` iterations allowed it ends, and what it puts in front
of the accumulator is at most `k` digits that write `num`. -/
theorem decimalToAnyLoop_spec : ∀ (fuel k : Nat) (num : Int) (acc : String),
    k ≤ fuel → 0 ≤ num → num < 62 ^ k → num ≤ 9223372036854775807 →
    ∃ s, decimalToAnyLoop 62 fuel num acc = .ok (s ++ acc) ∧
      (splitChars s).length ≤ k ∧
      (∀ p ∈ splitChars s, 0 ≤ findKey p ∧ findKey p < 62) ∧
      posValue (splitChars s) = num := by
  intro fuel
  induction fuel with
  | zero =>
    intro k num acc hk h0 hlt _
    have hk0 : k = 0 := by omega
    subst hk0
    have hnum : num = 0 := by
      simp only [pow_zero] at hlt
      omega
    subst hnum
    exact ⟨"", by simp [decimalToAnyLoop], by simp [splitChars], by simp [splitChars],
      by simp [splitChars, posValue]⟩
  | succ fuel ih =>
    intro k num acc hk h0 hlt hmax
    by_cases hz : num = 0
    · subst hz
      exact ⟨"", by simp [decimalToAnyLoop], by simp [splitChars], by simp [splitChars],
        by simp [splitChars, posValue]⟩
    · obtain ⟨j, hj⟩ : ∃ j, k = j + 1 := by
        cases k with
        | zero =>
          simp only [pow_zero] at hlt
          omega
        | succ j => exact ⟨j, rfl⟩
      subst hj
      have hrem : rem64 num 62 = num % 62 := by
        unfold rem64
        rw [Int.tmod_eq_emod h0 (by omega), wrap64_of_isInt64 (by unfold isInt64; omega)]
      have hdiv : div64 num 62 = num / 62 := by
        unfold div64
        rw [Int.tdiv_eq_ediv h0 (by omega), wrap64_of_isInt64 (by unfold isInt64; omega)]
      have hq0 : 0 ≤ num / 62 := by omega
      have hqlt : num / 62 < 62 ^ j := by
        apply Int.ediv_lt_of_lt_mul (by omega)
        rw [pow_succ] at hlt
        exact hlt
      obtain ⟨s, hs, hlen, hdig, hval⟩ :=
        ih j (num / 62) (tenToAny (num % 62) ++ acc) (by omega) hq0 hqlt (by omega)
      have hr : num % 62 = ((num % 62).toNat : Int) := by omega
      obtain ⟨hkey, hsplit⟩ := digit_facts (num % 62).toNat (by omega)
      rw [← hr] at hkey hsplit
      refine ⟨s ++ tenToAny (num % 62), ?_, ?_, ?_, ?_⟩
      · rw [decimalToAnyLoop]
        simp only [if_pos hz, hrem, hdiv]
        rw [hs, String.append_assoc]
        simp
      · rw [splitChars_append, hsplit, List.length_append, List.length_singleton]
        omega
      · intro p hp
        rw [splitChars_append, hsplit] at hp
        rcases List.mem_append.1 hp with h | h
        · exact hdig p h
        · rw [List.mem_singleton.1 h, hkey]
          omega
      · rw [splitChars_append, hsplit, posValue_snoc, hval, hkey]
        omega

/-- The loop of `anyToDecimal` with base 62 over at most eleven valid digits
whose value fits an `int64`: no step overflows and the result is the value the
digits write, on top of what was accumulated. -/
theorem anyToDecimalLoop_spec (pow : Int → Int → Int)
    (hpow : ∀ k : Nat, k ≤ 10 → pow 62 (k : Int) = 62 ^ k) :
    ∀ (l : List String) (acc : Int),
      (∀ p ∈ l, 0 ≤ findKey p ∧ findKey p < 62) → l.length ≤ 11 → 0 ≤ acc →
      acc + posValue l ≤ 9223372036854775807 →
      anyToDecimalLoop pow 62 l acc (sub64 (l.length : Int) 1) = acc + posValue l := by
  intro l
  induction l with
  | nil =>
    intro acc _ _ _ _
    simp [anyToDecimalLoop, posValue]
  | cons p rest ih =>
    intro acc hl hlen h0 hmax
    have hk := hl p (List.mem_cons_self _ _)
    have hrest : ∀ q ∈ rest, 0 ≤ findKey q ∧ findKey q < 62 :=
      fun q hq => hl q (List.mem_cons_of_mem _ hq)
    have hlen' : rest.length ≤ 10 := by
      simp only [List.length_cons] at hlen
      omega
    have hne : findKey p ≠ -1 := by omega
    have hn : sub64 ((p :: rest).length : Int) 1 = (rest.length : Int) := by
      unfold sub64
      rw [List.length_cons]
      push_cast
      rw [wrap64_of_isInt64 (by unfold isInt64; omega)]
      omega
    have hpv := posValue_nonneg rest hrest
    have hX : (0 : Int) ≤ findKey p * 62 ^ rest.length :=
      mul_nonneg hk.1 (by positivity)
    simp only [posValue] at hmax ⊢
    rw [anyToDecimalLoop]
    simp only [if_pos hne, hn, hpow rest.length hlen', mul64, add64]
    generalize findKey p * 62 ^ rest.length = X at hX hmax ⊢
    rw [wrap64_of_isInt64 (x := X) (by unfold isInt64; omega),
      wrap64_of_isInt64 (x := acc + X) (by unfold isInt64; omega),
      ih (acc + X) hrest (by omega) (by omega) (by omega)]
    omega

/-- C10: for every `v` with `0 < v ≤ 2^63 - 1`, `decimalToAny(v, 62)` returns a
string, and `anyToDecimal` of that string in base 62 is the decimal rendering of
`v`.  The float64 powers `int(math.Pow(62, k))` that `anyToDecimal` uses are
taken to be exact for `k ≤ 10`, the only exponents such a string reaches. -/
theorem C10_base62_roundtrip (pow : Int → Int → Int)
    (hpow : ∀ k : Nat, k ≤ 10 → pow 62 (k : Int) = 62 ^ k)
    (v : Int) (h0 : 0 < v) (h1 : v ≤ 9223372036854775807) :
    ∃ s, decimalToAny v 62 = .ok s ∧ anyToDecimal pow s 62 = Itoa v := by
  obtain ⟨s, hs, hlen, hdig, hval⟩ :=
    decimalToAnyLoop_spec 64 11 v "" (by omega) (by omega)
      (lt_of_le_of_lt h1 (by norm_num)) h1
  refine ⟨s, ?_, ?_⟩
  · unfold decimalToAny
    rw [hs]
    simp
  · unfold anyToDecimal
    rw [anyToDecimalLoop_spec pow hpow (splitChars s) 0 hdig hlen (le_refl _)
      (by rw [hval]; omega), hval]
    simp

/-- The instance of C10 at `v = 9223372036854775807`, whose base-62 form is
`aZl8N0y58M7`, with exact integer powers. -/
theorem C10_base62_roundtrip_witness :
    (∀ k : Nat, k ≤ 10 → (fun n e => n ^ e.toNat : Int → Int → Int) 62 (k : Int) = 62 ^ k) ∧
    (0 : Int) < 9223372036854775807 ∧
    decimalToAny 9223372036854775807 62 = .ok "aZl8N0y58M7" ∧
    ∃ s, decimalToAny 9223372036854775807 62 = .ok s ∧
      anyToDecimal (fun n e => n ^ e.toNat) s 62 = Itoa 9223372036854775807 :=
  ⟨fun k _ => by simp, by decide, by decide,
    C10_base62_roundtrip (fun n e => n ^ e.toNat) (fun k _ => by simp)
      9223372036854775807 (by decide) (by decide)⟩

/-! ## The configuration and the checks of `InitIdWorker` -/

theorem initConfig_maxWorkerId (w : IdWorker) : (initConfig w).maxWorkerId = 15 := by
  have h : xor64 (-1) (shl64 (-1) 4) = 15 := by decide
  simpa only [initConfig] using h

theorem initConfig_maxDatacenterId (w : IdWorker) : (initConfig w).maxDatacenterId = 15 := by
  have h : xor64 (-1) (shl64 (-1) 4) = 15 := by decide
  simpa only [initConfig] using h

/-- Whatever `InitIdWorker` returns, the receiver it leaves agrees with
`initConfig` on every field but the two ids. -/
theorem InitIdWorker_fields (w : IdWorker) (a b : Int) :
    (InitIdWorker w a b).1 = initConfig w ∨
      (InitIdWorker w a b).1 = { initConfig w with workerId := a, datacenterId := b } := by
  simp only [InitIdWorker]
  split_ifs
  · exact Or.inl rfl
  · exact Or.inl rfl
  · exact Or.inr rfl

/-- C15: after `InitIdWorker`, for every receiver and every pair of arguments,
the bit widths are 4, 4 and 16, `maxWorkerId = 2^workerIdBits - 1 = 15`,
`maxDatacenterId = 2^datacenterIdBits - 1 = 15`,
`sequenceMask = 2^sequenceBits - 1 = 65535`, `workerIdLeftShift = sequenceBits
= 16`, `datacenterIdLeftShift = workerIdBits + workerIdLeftShift = 20` and
`timestampLeftShift = datacenterIdBits + datacenterIdLeftShift = 24`. -/
theorem C15_init_derived_configuration (w : IdWorker) (workerId datacenterId : Int) :
    (InitIdWorker w workerId datacenterId).1.workerIdBits = 4 ∧
    (InitIdWorker w workerId datacenterId).1.datacenterIdBits = 4 ∧
    (InitIdWorker w workerId datacenterId).1.sequenceBits = 16 ∧
    (InitIdWorker w workerId datacenterId).1.maxWorkerId = 15 ∧
    (InitIdWorker w workerId datacenterId).1.maxWorkerId
      = 2 ^ (InitIdWorker w workerId datacenterId).1.workerIdBits - 1 ∧
    (InitIdWorker w workerId datacenterId).1.maxDatacenterId = 15 ∧
    (InitIdWorker w workerId datacenterId).1.maxDatacenterId
      = 2 ^ (InitIdWorker w workerId datacenterId).1.datacenterIdBits - 1 ∧
    (InitIdWorker w workerId datacenterId).1.sequenceMask = 65535 ∧
    (InitIdWorker w workerId datacenterId).1.sequenceMask
      = 2 ^ (InitIdWorker w workerId datacenterId).1.sequenceBits - 1 ∧
    (InitIdWorker w workerId datacenterId).1.workerIdLeftShift = 16 ∧
    (InitIdWorker w workerId datacenterId).1.workerIdLeftShift
      = (InitIdWorker w workerId datacenterId).1.sequenceBits ∧
    (InitIdWorker w workerId datacenterId).1.datacenterIdLeftShift = 20 ∧
    (InitIdWorker w workerId datacenterId).1.datacenterIdLeftShift
      = (InitIdWorker w workerId datacenterId).1.workerIdBits
        + (InitIdWorker w workerId datacenterId).1.workerIdLeftShift ∧
    (InitIdWorker w workerId datacenterId).1.timestampLeftShift = 24 ∧
    (InitIdWorker w workerId datacenterId).1.timestampLeftShift
      = (InitIdWorker w workerId datacenterId).1.datacenterIdBits
        + (InitIdWorker w workerId datacenterId).1.datacenterIdLeftShift := by
  have hmw := initConfig_maxWorkerId w
  have hmd := initConfig_maxDatacenterId w
  have hsm := initConfig_sequenceMask w
  have hb1 : (initConfig w).workerIdBits = 4 := rfl
  have hb2 : (initConfig w).datacenterIdBits = 4 := rfl
  have hb3 : (initConfig w).sequenceBits = 16 := rfl
  have hs1 : (initConfig w).workerIdLeftShift = 16 := rfl
  have hs2 : (initConfig w).datacenterIdLeftShift = 20 := rfl
  have hs3 : (initConfig w).timestampLeftShift = 24 := rfl
  rcases InitIdWorker_fields w workerId datacenterId with h | h <;> rw [h] <;>
    simp only [hmw, hmd, hsm, hb1, hb2, hb3, hs1, hs2, hs3] <;> norm_num

/-- The error of `InitIdWorker` is decided by the two ids the receiver holds
before the call. -/
theorem InitIdWorker_error_iff (w : IdWorker) (a b : Int) :
    (InitIdWorker w a b).2 ≠ none ↔
      (w.workerId < 0 ∨ 15 < w.workerId ∨ w.datacenterId < 0 ∨ 15 < w.datacenterId) := by
  have hmw := initConfig_maxWorkerId w
  have hmd := initConfig_maxDatacenterId w
  have hw : (initConfig w).workerId = w.workerId := rfl
  have hd : (initConfig w).datacenterId = w.datacenterId := rfl
  simp only [InitIdWorker, hmw, hmd, hw, hd]
  split_ifs with h1 h2
  · simp only [ne_eq, reduceCtorEq, not_false_eq_true, true_iff]
    omega
  · simp only [ne_eq, reduceCtorEq, not_false_eq_true, true_iff]
    omega
  · simp only [ne_eq, not_true_eq_false, false_iff]
    omega

/-- C19: whether `InitIdWorker(workerId, datacenterId)` returns an error does
not depend on its arguments: it does exactly when the `workerId` or
`datacenterId` field the receiver held before the call lies outside `[0, 15]`.
On a zero-valued worker it succeeds for every pair of arguments and stores them
unchecked, and re-initialising that worker fails, whatever the new arguments,
when the ids stored before were out of range. -/
theorem C19_init_checks_receiver_fields (w : IdWorker) (a b a' b' : Int) :
    ((InitIdWorker w a b).2 ≠ none ↔
      (w.workerId < 0 ∨ 15 < w.workerId ∨ w.datacenterId < 0 ∨ 15 < w.datacenterId)) ∧
    ((InitIdWorker w a b).2 ≠ none ↔ (InitIdWorker w a' b').2 ≠ none) ∧
    ((InitIdWorker zeroIdWorker a b).2 = none ∧
      (InitIdWorker zeroIdWorker a b).1.workerId = a ∧
      (InitIdWorker zeroIdWorker a b).1.datacenterId = b) ∧
    ((a < 0 ∨ 15 < a ∨ b < 0 ∨ 15 < b) →
      (InitIdWorker (InitIdWorker zeroIdWorker a b).1 a' b').2 ≠ none) := by
  refine ⟨InitIdWorker_error_iff w a b, ?_, ?_, ?_⟩
  · rw [InitIdWorker_error_iff, InitIdWorker_error_iff]
  · rw [InitIdWorker_zero]
    exact ⟨rfl, rfl, rfl⟩
  · intro h
    rw [InitIdWorker_error_iff, InitIdWorker_zero]
    exact h

/-- The instance of C19 at a zero-valued worker initialised with `(16, 0)` and
then again with `(3, 4)`: the first call succeeds, the second fails. -/
theorem C19_init_checks_receiver_fields_witness :
    ((16 : Int) < 0 ∨ (15 : Int) < 16 ∨ (0 : Int) < 0 ∨ (15 : Int) < 0) ∧
    (InitIdWorker zeroIdWorker 16 0).2 = none ∧
    (InitIdWorker (InitIdWorker zeroIdWorker 16 0).1 3 4).2 ≠ none :=
  ⟨by decide,
    (C19_init_checks_receiver_fields zeroIdWorker 16 0 3 4).2.2.1.1,
    (C19_init_checks_receiver_fields zeroIdWorker 16 0 3 4).2.2.2 (by decide)⟩

/-- C14, at the failing inputs: a worker that holds `workerId = 99` (stored
unchecked by `InitIdWorker(99, 0)` on a zero value) rejects `InitIdWorker(3, 4)`
with a message that shows the two arguments `3` and `4`, not the offending `99`
nor the bound `15`; the same happens for a stored `datacenterId = 99`. -/
theorem C14_error_message_shows_arguments :
    (InitIdWorker (InitIdWorker zeroIdWorker 99 0).1 3 4).2
      = some "workerId[3] is less than 0 or greater than maxWorkerId[4]." ∧
    (InitIdWorker (InitIdWorker zeroIdWorker 0 99).1 3 4).2
      = some "datacenterId[3] is less than 0 or greater than maxDatacenterId[4]." ∧
    (InitIdWorker zeroIdWorker 99 0).1.workerId = 99 ∧
    (InitIdWorker zeroIdWorker 0 99).1.datacenterId = 99 ∧
    (InitIdWorker (InitIdWorker zeroIdWorker 99 0).1 3 4).1.maxWorkerId = 15 ∧
    (InitIdWorker (InitIdWorker zeroIdWorker 0 99).1 3 4).1.maxDatacenterId = 15 := by
  refine ⟨by rfl, by rfl, by decide, by decide, by decide, by decide⟩

/-! ## The unit of the timestamp -/

/-- C13, at the failing input: a fresh worker initialised with `(0, 0)` whose
clock `time.Now().UnixNano()` reads `1793792152256475041` stores that
nanosecond reading as the timestamp and returns `16777216`, whose timestamp
field `id >> 24` is `1`; the Unix millisecond of the call is `1793792152256` and
its offset from `startTime` is `190089437984`. -/
theorem C13_timestamp_field_is_not_milliseconds :
    (NextId (fun _ => 1793792152256475041) (InitIdWorker zeroIdWorker 0 0).1 0).ret
      = some 16777216 ∧
    (NextId (fun _ => 1793792152256475041)
      (InitIdWorker zeroIdWorker 0 0).1 0).worker.lastTimestamp = 1793792152256475041 ∧
    shr64 16777216 24 = 1 ∧
    div64 1793792152256475041 millisecond = 1793792152256 ∧
    sub64 (div64 1793792152256475041 millisecond) 1603702714272 = 190089437984 ∧
    shr64 16777216 24 ≠ sub64 (div64 1793792152256475041 millisecond) 1603702714272 := by
  decide

/-! ## The transitions of `NextId` -/

/-- C17: on a configured worker whose sequence is in `[0, 65535]`, a call of
`NextId` that returns leaves the sequence in `[0, sequenceMask] = [0, 65535]`;
if the reading `t` is greater than `lastTimestamp`, `sequence` becomes `0` and
`lastTimestamp` becomes `t`; if `t` equals `lastTimestamp` and `sequence <
sequenceMask`, `sequence` becomes `sequence + 1` and `lastTimestamp` stays `t`;
and in every case the id returned is the sign-fixed packing of the
`lastTimestamp` the call leaves. -/
theorem C17_nextId_transitions (clock : Nat → Int) (w : IdWorker) (pos : Nat) (id : Int)
    (hc : Configured w) (hs : 0 ≤ w.sequence ∧ w.sequence ≤ 65535)
    (hret : (NextId clock w pos).ret = some id) :
    (0 ≤ (NextId clock w pos).worker.sequence ∧
      (NextId clock w pos).worker.sequence ≤ (NextId clock w pos).worker.sequenceMask ∧
      (NextId clock w pos).worker.sequenceMask = 65535) ∧
    (w.lastTimestamp < clock pos →
      (NextId clock w pos).worker.sequence = 0 ∧
      (NextId clock w pos).worker.lastTimestamp = clock pos) ∧
    (clock pos = w.lastTimestamp → w.sequence < w.sequenceMask →
      (NextId clock w pos).worker.sequence = w.sequence + 1 ∧
      (NextId clock w pos).worker.lastTimestamp = w.lastTimestamp) ∧
    id = signFix (packId (NextId clock w pos).worker
      (NextId clock w pos).worker.lastTimestamp) := by
  have hmask : w.sequenceMask = 65535 := hc.2.2.2.2
  have hid := NextId_ret clock w pos id hret
  refine ⟨?_, ?_, ?_, hid⟩
  · have hm' : (NextId clock w pos).worker.sequenceMask = 65535 :=
      (NextId_configured clock w pos hc).2.2.2.2
    rw [hm']
    rcases lt_trichotomy (clock pos) w.lastTimestamp with h | h | h
    · rw [NextId_regress _ _ _ h] at hret
      exact absurd hret (by simp)
    · by_cases hz : and64 (add64 w.sequence 1) w.sequenceMask = 0
      · rw [NextId_exhausted _ _ _ h hz]
        have h0 : (0 : Int) ≤ 65535 := by omega
        exact ⟨le_refl _, h0, rfl⟩
      · rw [NextId_same _ _ _ h hz]
        have hr := and64_mask_range (add64 w.sequence 1)
        rw [← hmask] at hr
        exact ⟨hr.1, by rw [hmask] at hr ⊢; exact hr.2, rfl⟩
    · rw [NextId_advance _ _ _ h]
      have h0 : (0 : Int) ≤ 65535 := by omega
      exact ⟨le_refl _, h0, rfl⟩
  · intro h
    rw [NextId_advance _ _ _ h]
    exact ⟨rfl, rfl⟩
  · intro h hlt
    have hseq : and64 (add64 w.sequence 1) w.sequenceMask = w.sequence + 1 := by
      rw [hmask] at hlt ⊢
      rw [next_sequence hs, if_neg (by omega)]
    rw [NextId_same _ _ _ h (by rw [hseq]; omega)]
    exact ⟨hseq, h⟩

/-- The instance of C17 at a fresh worker initialised with `(2, 1)` and a clock
that reads `1603702714273`. -/
theorem C17_nextId_transitions_witness :
    Configured (InitIdWorker zeroIdWorker 2 1).1 ∧
    (NextId (fun _ => 1603702714273) (InitIdWorker zeroIdWorker 2 1).1 0).ret
      = some 17956864 ∧
    (NextId (fun _ => 1603702714273) (InitIdWorker zeroIdWorker 2 1).1 0).worker.sequence = 0 ∧
    (17956864 : Int) = signFix (packId
      (NextId (fun _ => 1603702714273) (InitIdWorker zeroIdWorker 2 1).1 0).worker
      (NextId (fun _ => 1603702714273)
        (InitIdWorker zeroIdWorker 2 1).1 0).worker.lastTimestamp) :=
  ⟨by decide, by decide,
    ((C17_nextId_transitions (fun _ => 1603702714273) (InitIdWorker zeroIdWorker 2 1).1 0
      17956864 (by decide) (by decide) (by decide)).2.1 (by decide)).1,
    (C17_nextId_transitions (fun _ => 1603702714273) (InitIdWorker zeroIdWorker 2 1).1 0
      17956864 (by decide) (by decide) (by decide)).2.2.2⟩

/-! ## Reading the fields back -/

theorem and64_fifteen (y : Int) : and64 y 15 = ((toU64 y % 16 : Nat) : Int) := by
  unfold and64
  have h : toU64 15 = 2 ^ 4 - 1 := by decide
  have h2 : toU64 y % 2 ^ 4 < 9223372036854775808 := by omega
  rw [h, Nat.and_pow_two_sub_one_eq_mod, ofU64_of_lt h2]
  rfl

/-- The fields of a packing in which nothing exceeds its width, read back by
shifting and masking. -/
theorem packId_fields (w : IdWorker) (ts : Int) (hc : Configured w)
    (hd : 0 ≤ w.datacenterId ∧ w.datacenterId ≤ 15)
    (hw : 0 ≤ w.workerId ∧ w.workerId ≤ 15)
    (hs : 0 ≤ w.sequence ∧ w.sequence ≤ 65535)
    (hts : 0 ≤ ts - w.startTime ∧ ts - w.startTime < 549755813888) :
    0 ≤ packId w ts ∧
    shr64 (packId w ts) 24 = ts - w.startTime ∧
    and64 (shr64 (packId w ts) 20) 15 = w.datacenterId ∧
    and64 (shr64 (packId w ts) 16) 15 = w.workerId ∧
    and64 (packId w ts) 65535 = w.sequence := by
  have hst : w.startTime = 1603702714272 := hc.1
  rw [hst] at hts ⊢
  have hv := packId_value 0 w hc ts (by constructor <;> push_cast <;> omega) hd hw hs
  simp only [Nat.cast_zero, zero_mul, sub_zero] at hv
  rw [hv]
  generalize ts - 1603702714272 = o at hts ⊢
  generalize w.datacenterId = d at hd ⊢
  generalize w.workerId = k at hw ⊢
  generalize w.sequence = q at hs ⊢
  have p24 : (2 : Int) ^ 24 = 16777216 := by norm_num
  have p20 : (2 : Int) ^ 20 = 1048576 := by norm_num
  have p16 : (2 : Int) ^ 16 = 65536 := by norm_num
  unfold shr64
  rw [p24, p20, p16, and64_fifteen, and64_fifteen, and64_mask]
  unfold toU64
  refine ⟨by omega, by omega, by omega, by omega, by omega⟩

/-- C20: for `workerId` and `datacenterId` in `[0, 15]`, `sequence` in
`[0, 65535]` and a timestamp with `0 ≤ ts - startTime < 2^39`, the value packed
by `NextId` is non-negative, passes the sign guard unchanged, and gives back
every field: `id >> 24 = ts - startTime`, `(id >> 20) & 15 = datacenterId`,
`(id >> 16) & 15 = workerId`, `id & 65535 = sequence`; so two such packings are
equal only if all four fields are equal. -/
theorem C20_packed_fields_recoverable (w w' : IdWorker) (ts ts' : Int)
    (hc : Configured w)
    (hd : 0 ≤ w.datacenterId ∧ w.datacenterId ≤ 15)
    (hw : 0 ≤ w.workerId ∧ w.workerId ≤ 15)
    (hs : 0 ≤ w.sequence ∧ w.sequence ≤ 65535)
    (hts : 0 ≤ ts - w.startTime ∧ ts - w.startTime < 549755813888)
    (hc' : Configured w')
    (hd' : 0 ≤ w'.datacenterId ∧ w'.datacenterId ≤ 15)
    (hw' : 0 ≤ w'.workerId ∧ w'.workerId ≤ 15)
    (hs' : 0 ≤ w'.sequence ∧ w'.sequence ≤ 65535)
    (hts' : 0 ≤ ts' - w'.startTime ∧ ts' - w'.startTime < 549755813888) :
    (0 ≤ packId w ts ∧ signFix (packId w ts) = packId w ts ∧
      shr64 (packId w ts) 24 = ts - w.startTime ∧
      and64 (shr64 (packId w ts) 20) 15 = w.datacenterId ∧
      and64 (shr64 (packId w ts) 16) 15 = w.workerId ∧
      and64 (packId w ts) 65535 = w.sequence) ∧
    (packId w ts = packId w' ts' →
      ts - w.startTime = ts' - w'.startTime ∧ w.datacenterId = w'.datacenterId ∧
      w.workerId = w'.workerId ∧ w.sequence = w'.sequence) := by
  obtain ⟨h0, h1, h2, h3, h4⟩ := packId_fields w ts hc hd hw hs hts
  obtain ⟨_, h1', h2', h3', h4'⟩ := packId_fields w' ts' hc' hd' hw' hs' hts'
  refine ⟨⟨h0, signFix_of_nonneg h0, h1, h2, h3, h4⟩, ?_⟩
  intro heq
  rw [heq] at h1 h2 h3 h4
  exact ⟨h1.symm.trans h1', h2.symm.trans h2', h3.symm.trans h3', h4.symm.trans h4'⟩

/-- The instance of C20 at the worker `(2, 1)` after a call at `1603702714273`,
set against the worker `(3, 1)`: the packing is `17956864`, its timestamp field
is `1` and its worker field is `2`. -/
theorem C20_packed_fields_recoverable_witness :
    packId (NextId (fun _ => 1603702714273) (InitIdWorker zeroIdWorker 2 1).1 0).worker
      1603702714273 = 17956864 ∧
    shr64 (packId (NextId (fun _ => 1603702714273) (InitIdWorker zeroIdWorker 2 1).1 0).worker
      1603702714273) 24 = 1603702714273 -
        (NextId (fun _ => 1603702714273) (InitIdWorker zeroIdWorker 2 1).1 0).worker.startTime ∧
    and64 (shr64 (packId
      (NextId (fun _ => 1603702714273) (InitIdWorker zeroIdWorker 2 1).1 0).worker
      1603702714273) 16) 15 = 2 :=
  ⟨by decide,
    (C20_packed_fields_recoverable
      (NextId (fun _ => 1603702714273) (InitIdWorker zeroIdWorker 2 1).1 0).worker
      (NextId (fun _ => 1603702714273) (InitIdWorker zeroIdWorker 3 1).1 0).worker
      1603702714273 1603702714273
      (by decide) (by decide) (by decide) (by decide) (by decide)
      (by decide) (by decide) (by decide) (by decide) (by decide)).1.2.2.1,
    (C20_packed_fields_recoverable
      (NextId (fun _ => 1603702714273) (InitIdWorker zeroIdWorker 2 1).1 0).worker
      (NextId (fun _ => 1603702714273) (InitIdWorker zeroIdWorker 3 1).1 0).worker
      1603702714273 1603702714273
      (by decide) (by decide) (by decide) (by decide) (by decide)
      (by decide) (by decide) (by decide) (by decide) (by decide)).1.2.2.2.2.1⟩

/-! ## Callers that overlap -/

/-- One caller alone: `NextId` is its locked part followed by its unlocked part
on the receiver the locked part left. -/
theorem NextId_eq_locked_then_unlocked (clock : Nat → Int) (w : IdWorker) (pos : Nat) :
    NextId clock w pos =
      match nextIdLocked clock w pos with
      | none => { worker := w, pos := pos + 1, ret := none }
      | some (w', t, p) => { worker := w', pos := p, ret := some (nextIdUnlocked w' t) } := by
  unfold NextId nextIdLocked nextIdUnlocked
  by_cases h : clock pos < w.lastTimestamp
  · simp only [if_pos h]
  · simp only [if_neg h]

/-- C16, at the failing schedule: two callers share a fresh worker initialised
with `(0, 0)` and both read `1793792152256475041`.  Run one after the other they
return `16777216` and `16777217`.  When both have run their locked part before
either packs, each packs the shared `w.sequence = 1` with its own `timestamp`,
and both return `16777217`. -/
theorem C16_overlapping_callers_return_one_id :
    (NextIds (fun _ => 1793792152256475041) 2 (InitIdWorker zeroIdWorker 0 0).1 0).map
      (fun r => r.1) = some [16777216, 16777217] ∧
    twoCallersInterleaved (fun _ => 1793792152256475041) (InitIdWorker zeroIdWorker 0 0).1 0
      = some (16777217, 16777217) := by
  decide

/-! ## Decoding base 62 -/

theorem foldl_findKey (s : String) : ∀ (l : List (Int × String)) (init : Int),
    l.foldl (fun result kv => if s = kv.2 then kv.1 else result) init = init ∨
      ∃ kv ∈ l, kv.1 = l.foldl (fun result kv => if s = kv.2 then kv.1 else result) init ∧
        kv.2 = s := by
  intro l
  induction l with
  | nil =>
    intro init
    exact Or.inl rfl
  | cons x rest ih =>
    intro init
    simp only [List.foldl_cons]
    rcases ih (if s = x.2 then x.1 else init) with h | ⟨kv, hmem, hk, hv⟩
    · by_cases hx : s = x.2
      · rw [if_pos hx] at h ⊢
        exact Or.inr ⟨x, List.mem_cons_self _ _, h.symm, hx.symm⟩
      · rw [if_neg hx] at h ⊢
        exact Or.inl h
    · exact Or.inr ⟨kv, List.mem_cons_of_mem _ hmem, hk, hv⟩

theorem tenToAnyEntries_facts :
    ∀ kv ∈ tenToAnyEntries, 0 ≤ kv.1 ∧ kv.1 < 62 ∧ tenToAny kv.1 = kv.2 := by
  decide

/-- The function `findKey` gives `-1` or a digit value below 62 whose symbol in
`tenToAny` is the string looked up. -/
theorem findKey_cases (s : String) :
    findKey s = -1 ∨ (0 ≤ findKey s ∧ findKey s < 62 ∧ tenToAny (findKey s) = s) := by
  unfold findKey
  rcases foldl_findKey s tenToAnyEntries (-1) with h | ⟨kv, hmem, hk, hv⟩
  · exact Or.inl h
  · obtain ⟨h0, h1, h2⟩ := tenToAnyEntries_facts kv hmem
    rw [← hk]
    exact Or.inr ⟨h0, h1, by rw [h2, hv]⟩

theorem findKey_range {s : String} (h : findKey s ≠ -1) :
    0 ≤ findKey s ∧ findKey s < 62 := by
  rcases findKey_cases s with h1 | ⟨h0, h1, _⟩
  · exact absurd h1 h
  · exact ⟨h0, h1⟩

theorem foldl_horner (l : List String) : ∀ acc : Int,
    l.foldl (fun acc p => acc * 62 + findKey p) acc = acc * 62 ^ l.length + posValue l := by
  induction l with
  | nil =>
    intro acc
    simp [posValue]
  | cons p rest ih =>
    intro acc
    simp only [List.foldl_cons, ih, List.length_cons, posValue, pow_succ]
    ring

theorem specDecode_eq_posValue (s : String) : specDecode s = posValue (splitChars s) := by
  unfold specDecode
  rw [foldl_horner]
  simp

theorem posValue_lt (l : List String)
    (hl : ∀ p ∈ l, 0 ≤ findKey p ∧ findKey p < 62) : posValue l < 62 ^ l.length := by
  induction l with
  | nil => simp [posValue]
  | cons p rest ih =>
    have h1 := hl p (List.mem_cons_self _ _)
    have h2 := ih (fun q hq => hl q (List.mem_cons_of_mem _ hq))
    have h3 : (0 : Int) < 62 ^ rest.length := by positivity
    simp only [posValue, List.length_cons, pow_succ]
    have h4 : findKey p * 62 ^ rest.length ≤ 61 * 62 ^ rest.length :=
      mul_le_mul_of_nonneg_right (by omega) (le_of_lt h3)
    generalize findKey p * 62 ^ rest.length = X at h4 ⊢
    generalize (62 : Int) ^ rest.length = Y at h2 h3 h4 ⊢
    omega

theorem splitChars_length (s : String) : (splitChars s).length = s.length := by
  unfold splitChars
  rw [List.length_map]
  rfl

/-- C18: for a string `s` of alphabet characters whose value fits an `int64`
(any `s` of length at most 10, or of length 11 with a value up to `2^63 - 1`),
`anyToDecimal(s, 62)`, which sums `findKey(c) * 62^position` with positions
counted down from `len(s) - 1`, is the decimal rendering of the left-to-right
fold `acc = acc*62 + findKey(c)` started at `0`; and `findKey` is the inverse of
the table `tenToAny`.  The float64 powers `int(math.Pow(62, k))` are taken to be
exact for `k ≤ 10`. -/
theorem C18_decode_is_left_to_right_fold (pow : Int → Int → Int)
    (hpow : ∀ k : Nat, k ≤ 10 → pow 62 (k : Int) = 62 ^ k)
    (s : String) (hvalid : ∀ p ∈ splitChars s, findKey p ≠ -1) :
    (s.length ≤ 10 → anyToDecimal pow s 62 = Itoa (specDecode s)) ∧
    (s.length ≤ 11 → specDecode s ≤ 9223372036854775807 →
      anyToDecimal pow s 62 = Itoa (specDecode s)) ∧
    (∀ k : Nat, k < 62 → findKey (tenToAny (k : Int)) = k) ∧
    (∀ p : String, findKey p ≠ -1 → tenToAny (findKey p) = p) := by
  have hdig : ∀ p ∈ splitChars s, 0 ≤ findKey p ∧ findKey p < 62 :=
    fun p hp => findKey_range (hvalid p hp)
  have core : s.length ≤ 11 → specDecode s ≤ 9223372036854775807 →
      anyToDecimal pow s 62 = Itoa (specDecode s) := by
    intro hlen hfit
    unfold anyToDecimal
    rw [specDecode_eq_posValue] at hfit ⊢
    rw [anyToDecimalLoop_spec pow hpow (splitChars s) 0 hdig
      (by rw [splitChars_length]; exact hlen) (le_refl _) (by omega)]
    simp
  refine ⟨?_, core, fun k hk => (digit_facts k hk).1, ?_⟩
  · intro hlen
    apply core (by omega)
    rw [specDecode_eq_posValue]
    have h1 := posValue_lt (splitChars s) hdig
    have h2 : (62 : Int) ^ (splitChars s).length ≤ 62 ^ 10 :=
      pow_le_pow_right₀ (by norm_num) (by rw [splitChars_length]; exact hlen)
    have h3 : (62 : Int) ^ 10 = 839299365868340224 := by norm_num
    omega
  · intro p hp
    rcases findKey_cases p with h | ⟨_, _, h⟩
    · exact absurd h hp
    · exact h

/-- The instance of C18 at `s = "aZl8N0y58M"`, ten characters, with exact
integer powers: both sides are `148764065110560900`. -/
theorem C18_decode_is_left_to_right_fold_witness :
    (∀ p ∈ splitChars "aZl8N0y58M", findKey p ≠ -1) ∧
    "aZl8N0y58M".length ≤ 10 ∧
    specDecode "aZl8N0y58M" = 148764065110560900 ∧
    anyToDecimal (fun n e => n ^ e.toNat) "aZl8N0y58M" 62 = Itoa (specDecode "aZl8N0y58M") :=
  ⟨by decide, by decide, by decide,
    (C18_decode_is_left_to_right_fold (fun n e => n ^ e.toNat) (fun k _ => by simp)
      "aZl8N0y58M" (by decide)).1 (by decide)⟩

/-- The loop of `anyToDecimal` over valid digits followed by a piece that
`findKey` does not know: it stops there, and every digit consumed has kept the
weight of its place in the whole input. -/
theorem anyToDecimalLoop_stops (pow : Int → Int → Int)
    (hpow : ∀ k : Nat, k ≤ 10 → pow 62 (k : Int) = 62 ^ k)
    (bad : String) (hbad : findKey bad = -1) (R : List String) :
    ∀ (P : List String) (acc : Int),
      (∀ p ∈ P, 0 ≤ findKey p ∧ findKey p < 62) → P.length + (R.length + 1) ≤ 11 →
      0 ≤ acc → acc + posValue P * 62 ^ (R.length + 1) ≤ 9223372036854775807 →
      anyToDecimalLoop pow 62 (P ++ bad :: R) acc (sub64 ((P ++ bad :: R).length : Int) 1)
        = acc + posValue P * 62 ^ (R.length + 1) := by
  intro P
  induction P with
  | nil =>
    intro acc _ _ _ _
    rw [List.nil_append, anyToDecimalLoop]
    simp [hbad, posValue]
  | cons p rest ih =>
    intro acc hl hlen h0 hmax
    have hk := hl p (List.mem_cons_self _ _)
    have hrest : ∀ q ∈ rest, 0 ≤ findKey q ∧ findKey q < 62 :=
      fun q hq => hl q (List.mem_cons_of_mem _ hq)
    have hne : findKey p ≠ -1 := by omega
    have hn : (rest ++ bad :: R).length = rest.length + (R.length + 1) := by simp
    have hlen' : rest.length + (R.length + 1) ≤ 10 := by
      simp only [List.length_cons] at hlen
      omega
    have hsub : sub64 ((p :: rest ++ bad :: R).length : Int) 1
        = ((rest ++ bad :: R).length : Int) := by
      unfold sub64
      rw [List.cons_append, List.length_cons]
      push_cast
      rw [wrap64_of_isInt64 (by unfold isInt64; omega)]
      omega
    have hpv := posValue_nonneg rest hrest
    have hY : (0 : Int) < 62 ^ (R.length + 1) := by positivity
    have hX : (0 : Int) ≤ findKey p * 62 ^ (rest.length + (R.length + 1)) :=
      mul_nonneg hk.1 (by positivity)
    have hZ : (0 : Int) ≤ posValue rest * 62 ^ (R.length + 1) :=
      mul_nonneg hpv (le_of_lt hY)
    have hsplit : posValue (p :: rest) * 62 ^ (R.length + 1)
        = findKey p * 62 ^ (rest.length + (R.length + 1))
          + posValue rest * 62 ^ (R.length + 1) := by
      simp only [posValue, pow_add]
      ring
    rw [hsplit] at hmax ⊢
    rw [List.cons_append] at hsub ⊢
    rw [anyToDecimalLoop]
    simp only [if_pos hne, hsub, hn, hpow _ hlen', mul64, add64]
    rw [hn] at ih
    generalize findKey p * 62 ^ (rest.length + (R.length + 1)) = X at hX hmax ⊢
    generalize posValue rest * 62 ^ (R.length + 1) = Z at hZ hmax ih ⊢
    rw [wrap64_of_isInt64 (x := X) (by unfold isInt64; omega),
      wrap64_of_isInt64 (x := acc + X) (by unfold isInt64; omega)]
    rw [ih (acc + X) hrest (by omega) (by omega) (by omega)]
    omega

/-- C11, as amended: for a string made of a valid prefix `pre`, a character `c`
outside the alphabet and any `rest`, of at most 11 characters in all,
`anyToDecimal(s, 62)` stops at `c` and returns the value accumulated so far, in
which every digit of the prefix keeps the weight `62^(len(s) - 1 - i)` of its
place in the whole string: the value of the prefix, which is what
`anyToDecimal(pre, 62)` returns, multiplied by `62^(len(s) - len(pre))`, as long
as that product fits an `int64`; for example `"1!"` decodes to `62`.  The
float64 powers `int(math.Pow(62, k))` are taken to be exact for `k ≤ 10`. -/
theorem C11_decode_stops_keeps_weights (pow : Int → Int → Int)
    (hpow : ∀ k : Nat, k ≤ 10 → pow 62 (k : Int) = 62 ^ k)
    (pre rest : String) (c : Char)
    (hvalid : ∀ p ∈ splitChars pre, findKey p ≠ -1)
    (hbad : findKey (String.mk [c]) = -1)
    (hlen : (pre ++ String.mk [c] ++ rest).length ≤ 11)
    (hfit : specDecode pre * 62 ^ (rest.length + 1) ≤ 9223372036854775807) :
    anyToDecimal pow (pre ++ String.mk [c] ++ rest) 62
      = Itoa (specDecode pre * 62 ^ (rest.length + 1)) ∧
    anyToDecimal pow pre 62 = Itoa (specDecode pre) ∧
    anyToDecimal (fun n e => n ^ e.toNat) "1!" 62 = "62" := by
  have hdig : ∀ p ∈ splitChars pre, 0 ≤ findKey p ∧ findKey p < 62 :=
    fun p hp => findKey_range (hvalid p hp)
  have hsplit : splitChars (pre ++ String.mk [c] ++ rest)
      = splitChars pre ++ String.mk [c] :: splitChars rest := by
    rw [splitChars_append, splitChars_append, List.append_assoc]
    rfl
  have hl : pre.length + (rest.length + 1) ≤ 11 := by
    simp only [String.length_append] at hlen
    have : (String.mk [c]).length = 1 := rfl
    omega
  have hpv := posValue_nonneg (splitChars pre) hdig
  have hY : (1 : Int) ≤ 62 ^ (rest.length + 1) := one_le_pow₀ (by norm_num)
  rw [specDecode_eq_posValue] at hfit ⊢
  refine ⟨?_, ?_, by rfl⟩
  · unfold anyToDecimal
    rw [hsplit]
    have h := anyToDecimalLoop_stops pow hpow (String.mk [c]) hbad (splitChars rest)
      (splitChars pre) 0 hdig (by rw [splitChars_length, splitChars_length]; exact hl)
      (le_refl _) (by rw [splitChars_length]; omega)
    rw [h, splitChars_length]
    simp
  · unfold anyToDecimal
    have hle : posValue (splitChars pre)
        ≤ posValue (splitChars pre) * 62 ^ (rest.length + 1) :=
      le_mul_of_one_le_right hpv hY
    rw [anyToDecimalLoop_spec pow hpow (splitChars pre) 0 hdig
      (by rw [splitChars_length]; omega) (le_refl _) (by omega)]
    simp

/-- The instance of C11 at `s = "1!"`: prefix `"1"`, the character `!`, nothing
after it. -/
theorem C11_decode_stops_keeps_weights_witness :
    (∀ p ∈ splitChars "1", findKey p ≠ -1) ∧
    findKey (String.mk ['!']) = -1 ∧
    specDecode "1" = 1 ∧
    anyToDecimal (fun n e => n ^ e.toNat) ("1" ++ String.mk ['!'] ++ "") 62
      = Itoa (specDecode "1" * 62 ^ ("".length + 1)) :=
  ⟨by decide, by decide, by decide,
    (C11_decode_stops_keeps_weights (fun n e => n ^ e.toNat) (fun k _ => by simp)
      "1" "" '!' (by decide) (by decide) (by decide) (by decide)).1⟩

/-- C11 as stated fails: `"1!"` has the valid prefix `"1"`, whose value is `1`,
and `!` is outside the alphabet, yet `anyToDecimal("1!", 62)` is `"62"`, not the
`"1"` that `anyToDecimal("1", 62)` gives. -/
theorem C11_counterexample :
    findKey "1" = 1 ∧ findKey "!" = -1 ∧
    anyToDecimal (fun n e => n ^ e.toNat) "1!" 62 = "62" ∧
    anyToDecimal (fun n e => n ^ e.toNat) "1" 62 = "1" ∧
    anyToDecimal (fun n e => n ^ e.toNat) "1!" 62
      ≠ anyToDecimal (fun n e => n ^ e.toNat) "1" 62 := by
  refine ⟨by decide, by decide, by rfl, by rfl, ?_⟩
  have h1 : anyToDecimal (fun n e => n ^ e.toNat) "1!" 62 = "62" := by rfl
  have h2 : anyToDecimal (fun n e => n ^ e.toNat) "1" 62 = "1" := by rfl
  rw [h1, h2]
  decide

/-! ## Encoding base 62 -/

theorem digit_chars : ∀ k : Nat, k < 62 →
    (tenToAny (k : Int)).data = [alphabet.data.getD k '0'] ∧
      alphabet.data.getD k '0' ∈ alphabet.data ∧
      (k ≠ 0 → alphabet.data.getD k '0' ≠ '0') := by
  decide

/-- The loop of `decimalToAny` with base 62 on a non-negative `int64`: what it
puts in front of the accumulator is empty for `0`, starts with a character other
than `0` otherwise, and is made of alphabet characters. -/
theorem decimalToAnyLoop_shape : ∀ (fuel k : Nat) (num : Int) (acc : String),
    k ≤ fuel → 0 ≤ num → num < 62 ^ k → num ≤ 9223372036854775807 →
    ∃ s, decimalToAnyLoop 62 fuel num acc = .ok (s ++ acc) ∧
      (num = 0 → s = "") ∧
      (0 < num → ∃ c t, s.data = c :: t ∧ c ≠ '0') ∧
      (∀ c ∈ s.data, c ∈ alphabet.data) := by
  intro fuel
  induction fuel with
  | zero =>
    intro k num acc hk h0 hlt _
    have hk0 : k = 0 := by omega
    subst hk0
    have hnum : num = 0 := by
      simp only [pow_zero] at hlt
      omega
    subst hnum
    exact ⟨"", by simp [decimalToAnyLoop], fun _ => rfl, fun h => absurd h (by omega),
      by simp⟩
  | succ fuel ih =>
    intro k num acc hk h0 hlt hmax
    by_cases hz : num = 0
    · subst hz
      exact ⟨"", by simp [decimalToAnyLoop], fun _ => rfl, fun h => absurd h (by omega),
        by simp⟩
    · obtain ⟨j, hj⟩ : ∃ j, k = j + 1 := by
        cases k with
        | zero =>
          simp only [pow_zero] at hlt
          omega
        | succ j => exact ⟨j, rfl⟩
      subst hj
      have hrem : rem64 num 62 = num % 62 := by
        unfold rem64
        rw [Int.tmod_eq_emod h0 (by omega), wrap64_of_isInt64 (by unfold isInt64; omega)]
      have hdiv : div64 num 62 = num / 62 := by
        unfold div64
        rw [Int.tdiv_eq_ediv h0 (by omega), wrap64_of_isInt64 (by unfold isInt64; omega)]
      have hq0 : 0 ≤ num / 62 := by omega
      have hqlt : num / 62 < 62 ^ j := by
        apply Int.ediv_lt_of_lt_mul (by omega)
        rw [pow_succ] at hlt
        exact hlt
      obtain ⟨s, hs, hzero, hfirst, hchars⟩ :=
        ih j (num / 62) (tenToAny (num % 62) ++ acc) (by omega) hq0 hqlt (by omega)
      have hr : num % 62 = ((num % 62).toNat : Int) := by omega
      obtain ⟨hdata, hmem, hnz⟩ := digit_chars (num % 62).toNat (by omega)
      rw [← hr] at hdata
      refine ⟨s ++ tenToAny (num % 62), ?_, fun h => absurd h hz, ?_, ?_⟩
      · rw [decimalToAnyLoop]
        simp only [if_pos hz, hrem, hdiv]
        rw [hs, String.append_assoc]
        simp
      · intro _
        rw [String.data_append, hdata]
        by_cases hq : num / 62 = 0
        · rw [hzero hq]
          exact ⟨_, [], rfl, hnz (by omega)⟩
        · obtain ⟨c, t, hct, hc⟩ := hfirst (by omega)
          rw [hct]
          exact ⟨c, t ++ [alphabet.data.getD (num % 62).toNat '0'], rfl, hc⟩
      · intro c hc
        rw [String.data_append, hdata] at hc
        rcases List.mem_append.1 hc with h | h
        · exact hchars c h
        · rw [List.mem_singleton.1 h]
          exact hmem

/-- C12: for every `v ≥ 0`, `decimalToAny(v, 62)` returns the base-62 digit
string of `v`, most significant digit first, over the alphabet
`0123456789abcdefghijklmnopqrstuvwxyzABCDEFGHIJKLMNOPQRSTUVWXYZ`: every
character is in the alphabet, the digit values `findKey` reads back are below 62
and sum with weights `62^i` to `v`, the first character is not `0`, and for
`v = 0` the string is empty.  The table `tenToAny` maps the digit `k` to the
`k`-th character of the alphabet. -/
theorem C12_encode_is_base62_digits (v : Int) (h0 : 0 ≤ v)
    (h1 : v ≤ 9223372036854775807) :
    (∃ s, decimalToAny v 62 = .ok s ∧
      (∀ c ∈ s.data, c ∈ alphabet.data) ∧
      (∀ p ∈ splitChars s, 0 ≤ findKey p ∧ findKey p < 62) ∧
      posValue (splitChars s) = v ∧
      s.data.head? ≠ some '0' ∧
      (v = 0 → s = "")) ∧
    decimalToAny 0 62 = .ok "" ∧
    (∀ k : Nat, k < 62 → (tenToAny (k : Int)).data = [alphabet.data.getD k '0']) := by
  have hv : v < 62 ^ 11 := lt_of_le_of_lt h1 (by norm_num)
  obtain ⟨s, hs, _, hdig, hval⟩ := decimalToAnyLoop_spec 64 11 v "" (by omega) h0 hv h1
  obtain ⟨s', hs', hzero, hfirst, hchars⟩ :=
    decimalToAnyLoop_shape 64 11 v "" (by omega) h0 hv h1
  have hss : s' = s := by
    rw [hs] at hs'
    have := Except.ok.inj hs'
    simpa using this.symm
  subst hss
  refine ⟨⟨s', ?_, hchars, hdig, hval, ?_, hzero⟩, by decide,
    fun k hk => (digit_chars k hk).1⟩
  · unfold decimalToAny
    rw [hs]
    simp
  · by_cases hz : v = 0
    · rw [hzero hz]
      simp
    · obtain ⟨c, t, hct, hc⟩ := hfirst (by omega)
      rw [hct]
      simpa using hc

/-- The instance of C12 at `v = 17956864`, whose base-62 form is `1dloQ`. -/
theorem C12_encode_is_base62_digits_witness :
    (0 : Int) ≤ 17956864 ∧
    decimalToAny 17956864 62 = .ok "1dloQ" ∧
    posValue (splitChars "1dloQ") = 17956864 ∧
    ∃ s, decimalToAny 17956864 62 = .ok s ∧
      (∀ c ∈ s.data, c ∈ alphabet.data) ∧
      (∀ p ∈ splitChars s, 0 ≤ findKey p ∧ findKey p < 62) ∧
      posValue (splitChars s) = 17956864 ∧
      s.data.head? ≠ some '0' ∧
      ((17956864 : Int) = 0 → s = "") :=
  ⟨by decide, by decide, by decide,
    (C12_encode_is_base62_digits 17956864 (by decide) (by decide)).1⟩

end Uuid
